import Mathlib

/-!
Verification of the RetroArch disc-image content identification code
(`task_database_cue.c`): a shallow embedding of its tokenizer, token
scanner, signature matcher, ISO9660 boot-record resolver, serial
scanners and cue-sheet data-track locator, together with theorems about
their behaviour.

Conventions of the embedding:
* a stream is a byte source, modelled either as a `List Nat` of the
  remaining bytes (for the sequentially consumed cue-sheet text) or as a
  pair of a byte map `Nat → Nat` and a size (for seekable disc images);
* `intfstream_read` on a seekable stream of size `size` at position
  `pos` returns `min n (size - pos)` bytes (reads past the end are
  short, reads at or past the end return 0);
* caller-supplied destination buffers are modelled as `List Nat`
  (bounded buffers, recording exactly which indices are stored to) or as
  total maps `Nat → Nat` whose initial contents are a parameter (the C
  buffers are uninitialised);
* machine integers are modelled as `Nat`/`Int`; none of the theorems
  below exercises an overflowing computation;
* the ambient `errno` value is passed explicitly where the code reads
  it (`return -errno`).
-/

namespace RetroArchCue

/-- Whitespace bytes recognised by `get_token`: space, tab, CR, LF. -/
def isSpaceB (b : Nat) : Bool := b == 32 || b == 9 || b == 13 || b == 10

/-- ASCII `toupper` on a byte. -/
def toupperB (b : Nat) : Nat := if 97 ≤ b ∧ b ≤ 122 then b - 32 else b

/-- ASCII `tolower` on a byte. -/
def tolowerB (b : Nat) : Nat := if 65 ≤ b ∧ b ≤ 90 then b + 32 else b

/-- ASCII `isalnum` on a byte. -/
def isalnumB (b : Nat) : Bool :=
  (decide (48 ≤ b) && decide (b ≤ 57)) ||
  (decide (65 ≤ b) && decide (b ≤ 90)) ||
  (decide (97 ≤ b) && decide (b ≤ 122))

/-- ASCII decimal digit test (`sscanf` `%d` digits). -/
def isDigitB (b : Nat) : Bool := decide (48 ≤ b) && decide (b ≤ 57)

/-- The C string held in a byte buffer: its bytes up to the first NUL. -/
def cStr (l : List Nat) : List Nat := l.takeWhile (fun b => !(b == 0))

/-- Replay a list of `(index, byte)` stores into a bounded buffer.
`List.set` ignores out-of-range indices, so a store past the end of the
buffer (an out-of-bounds store in C) leaves the modelled buffer
unchanged; the store is still visible in the recorded write trace. -/
def applyWrites (buf : List Nat) (ws : List (Nat × Nat)) : List Nat :=
  ws.foldl (fun b w => b.set w.1 w.2) buf

/-- Result of one `get_token` call: the C return value, the ordered
`(index, byte)` stores performed into the destination buffer, the bytes
of the token accumulated in the buffer (indices `0..len-1`), and the
bytes of the stream left unconsumed. -/
structure GetTokRes where
  ret : Int
  writes : List (Nat × Nat)
  tok : List Nat
  rest : List Nat
deriving Repr, DecidableEq

/-- Record one more store at the front of a `get_token` result (the
recursive result is destructured so that evaluation shares it). -/
def consW (w : Nat × Nat) : GetTokRes → GetTokRes
  | ⟨ret, ws, tok, rest⟩ => ⟨ret, w :: ws, tok, rest⟩

/-- `consW` in terms of projections. -/
theorem consW_eq (w : Nat × Nat) (r : GetTokRes) :
    consW w r = ⟨r.ret, w :: r.writes, r.tok, r.rest⟩ := by
  cases r
  rfl

/-- Loop body of `get_token` (`task_database_cue.c:67-125`).  `acc` is
the token content written so far (the cursor `c` sits at index
`acc.length`), `instr` is the `in_string` flag.  Every byte read from
the stream is first stored at the cursor (`intfstream_read(fd, c, 1)`);
whitespace before any content is skipped, a leading quote enters quoted
mode, a terminator byte is overwritten with NUL, and when `len` reaches
`max_len` a NUL is stored at index `max_len` and the token is cut. -/
def get_tokenAux : List Nat → List Nat → Bool → Nat → GetTokRes
  | [], acc, _, _ => ⟨0, [], acc, []⟩
  | b :: inp, acc, instr, maxLen =>
    if isSpaceB b then
      if acc.isEmpty then
        consW (0, b) (get_tokenAux inp acc instr maxLen)
      else if instr then
        if (acc ++ [b]).length = maxLen then
          ⟨(maxLen : Int), [(acc.length, b), (maxLen, 0)], acc ++ [b], inp⟩
        else
          consW (acc.length, b) (get_tokenAux inp (acc ++ [b]) instr maxLen)
      else
        ⟨(acc.length : Int), [(acc.length, b), (acc.length, 0)], acc, inp⟩
    else if b == 34 then
      if acc.isEmpty then
        consW (0, b) (get_tokenAux inp acc true maxLen)
      else
        ⟨(acc.length : Int), [(acc.length, b), (acc.length, 0)], acc, inp⟩
    else
      if (acc ++ [b]).length = maxLen then
        ⟨(maxLen : Int), [(acc.length, b), (maxLen, 0)], acc ++ [b], inp⟩
      else
        consW (acc.length, b) (get_tokenAux inp (acc ++ [b]) instr maxLen)

/-- `get_token(fd, token, max_len)`: read one whitespace/quote-delimited
token from the stream into a buffer of capacity `max_len`. -/
def get_token (inp : List Nat) (maxLen : Nat) : GetTokRes :=
  get_tokenAux inp [] false maxLen

/-- `get_token` never leaves more input than it was given. -/
theorem get_tokenAux_rest_le (inp : List Nat) (acc : List Nat) (instr : Bool)
    (maxLen : Nat) : (get_tokenAux inp acc instr maxLen).rest.length ≤ inp.length := by
  induction inp generalizing acc instr with
  | nil => simp [get_tokenAux]
  | cons b inp ih =>
    simp only [get_tokenAux]
    split_ifs <;>
      simp only [consW_eq] <;>
      first
        | (exact le_trans (ih _ _) (Nat.le_succ _))
        | (exact Nat.le_succ _)

/-- A successful `get_token` consumes at least one byte. -/
theorem get_tokenAux_rest_lt (inp : List Nat) (acc : List Nat) (instr : Bool)
    (maxLen : Nat) (h : 0 < (get_tokenAux inp acc instr maxLen).ret) :
    (get_tokenAux inp acc instr maxLen).rest.length < inp.length := by
  cases inp with
  | nil => simp [get_tokenAux] at h
  | cons b inp =>
    simp only [get_tokenAux]
    split_ifs <;>
      simp only [consW_eq] <;>
      first
        | exact Nat.lt_succ_of_le (get_tokenAux_rest_le _ _ _ _)
        | exact Nat.lt_succ_of_le (Nat.le_refl _)

/-- A successful `get_token` consumes at least one byte (wrapper form). -/
theorem get_token_rest_lt (inp : List Nat) (maxLen : Nat)
    (h : 0 < (get_token inp maxLen).ret) :
    (get_token inp maxLen).rest.length < inp.length :=
  get_tokenAux_rest_lt inp [] false maxLen h

/-- Setting an element past the end of a list does nothing. -/
theorem list_set_of_length_le (l : List Nat) (n v : Nat)
    (h : l.length ≤ n) : l.set n v = l := by
  induction l generalizing n with
  | nil => rfl
  | cons a l ih =>
    cases n with
    | zero => simp at h
    | succ n =>
      show a :: l.set n v = a :: l
      rw [ih n (by simpa using h)]

/-- Setting the element right after a prefix replaces the head of the
suffix. -/
theorem list_set_append_length (acc ts : List Nat) (t v : Nat) :
    (acc ++ t :: ts).set acc.length v = acc ++ v :: ts := by
  induction acc with
  | nil => rfl
  | cons a acc ih =>
    show (a :: (acc ++ t :: ts)).set (acc.length + 1) v = a :: (acc ++ v :: ts)
    have h : (a :: (acc ++ t :: ts)).set (acc.length + 1) v =
        a :: ((acc ++ t :: ts).set acc.length v) := rfl
    rw [h, ih]

/-- The C string of a NUL-free buffer is the whole buffer. -/
theorem cStr_all_ne {l : List Nat} (h : ∀ x ∈ l, x ≠ 0) : cStr l = l := by
  rw [cStr, List.takeWhile_eq_self_iff]
  intro x hx
  simpa using h x hx

/-- The C string of a NUL-free prefix followed by a NUL is the
prefix. -/
theorem cStr_append_cons_zero {acc : List Nat} (ts : List Nat)
    (h : ∀ x ∈ acc, x ≠ 0) : cStr (acc ++ 0 :: ts) = acc := by
  induction acc with
  | nil => rfl
  | cons a acc ih =>
    have ha : a ≠ 0 := h a (by simp)
    simp only [List.cons_append, cStr, List.takeWhile]
    have : (a == 0) = false := by simpa using ha
    simp only [this, Bool.not_false, if_true]
    have := ih (fun x hx => h x (by simp [hx]))
    simpa [cStr] using this

/-- The token accumulated by `get_token` extends the bytes already in
the buffer. -/
theorem get_tokenAux_tok_extends (inp : List Nat) :
    ∀ (acc : List Nat) (instr : Bool) (maxLen : Nat),
    ∃ u, (get_tokenAux inp acc instr maxLen).tok = acc ++ u := by
  induction inp with
  | nil => intro acc instr maxLen; exact ⟨[], by simp [get_tokenAux]⟩
  | cons b inp ih =>
    intro acc instr maxLen
    simp only [get_tokenAux]
    split_ifs with h1 h2 h3 h4 h5 h6 h7
    · obtain ⟨u, hu⟩ := ih acc instr maxLen
      exact ⟨u, by rw [consW_eq]; exact hu⟩
    · exact ⟨[b], rfl⟩
    · obtain ⟨u, hu⟩ := ih (acc ++ [b]) instr maxLen
      exact ⟨b :: u, by rw [consW_eq]; rw [hu]; simp⟩
    · exact ⟨[], by simp⟩
    · obtain ⟨u, hu⟩ := ih acc true maxLen
      exact ⟨u, by rw [consW_eq]; exact hu⟩
    · exact ⟨[], by simp⟩
    · exact ⟨[b], rfl⟩
    · obtain ⟨u, hu⟩ := ih (acc ++ [b]) instr maxLen
      exact ⟨b :: u, by rw [consW_eq]; rw [hu]; simp⟩

/-- Buffer/value bridge: when `get_token` succeeds and the token it
reports is NUL-free, replaying its stores into a buffer that holds
`acc` followed by `tail` (total size `maxLen`, with the cursor strictly
inside) leaves exactly the token as the buffer's C string. -/
theorem get_tokenAux_cStr (inp : List Nat) :
    ∀ (acc tail : List Nat) (instr : Bool) (maxLen : Nat),
    acc.length < maxLen →
    acc.length + tail.length = maxLen →
    (∀ x ∈ (get_tokenAux inp acc instr maxLen).tok, x ≠ 0) →
    0 < (get_tokenAux inp acc instr maxLen).ret →
    cStr (applyWrites (acc ++ tail) (get_tokenAux inp acc instr maxLen).writes) =
      (get_tokenAux inp acc instr maxLen).tok := by
  induction inp with
  | nil => intro acc tail instr maxLen _ _ _ hret; simp [get_tokenAux] at hret
  | cons b inp ih =>
    intro acc tail instr maxLen hcur hlen hz hret
    have htail : ∃ t ts, tail = t :: ts := by
      cases tail with
      | nil => simp at hlen; omega
      | cons t ts => exact ⟨t, ts, rfl⟩
    obtain ⟨t, ts, rfl⟩ := htail
    -- the token of the whole call, for transferring the NUL-freeness
    -- hypothesis to prefixes
    revert hz hret
    simp only [get_tokenAux]
    split_ifs with h1 h2 h3 h4 h5 h6 h7
    -- h1 : isSpaceB b, h2 : acc.isEmpty — leading-whitespace skip
    · intro hz hret
      simp only [consW_eq] at hz hret ⊢
      have hacc : acc = [] := by simpa [List.isEmpty_iff] using h2
      subst hacc
      simp only [applyWrites, List.foldl_cons, List.nil_append]
      have hset : (t :: ts).set 0 b = b :: ts := rfl
      rw [hset]
      exact ih [] (b :: ts) instr maxLen (by simpa using hcur)
        (by simpa using hlen) hz hret
    -- h3 : instr — quoted-mode whitespace is content; h4 : token full
    · intro hz hret
      have hts : ts = [] := by
        have hl : ts.length = 0 := by simp at hlen h4; omega
        simpa using hl
      subst hts
      simp only [applyWrites, List.foldl_cons, List.foldl_nil]
      rw [list_set_append_length]
      rw [list_set_of_length_le (acc ++ [b]) maxLen 0 (by simp at h4 ⊢; omega)]
      exact cStr_all_ne hz
    -- quoted-mode whitespace, token not yet full
    · intro hz hret
      simp only [consW_eq] at hz hret ⊢
      simp only [applyWrites, List.foldl_cons]
      rw [list_set_append_length]
      have : acc ++ b :: ts = (acc ++ [b]) ++ ts := by simp
      rw [this]
      refine ih (acc ++ [b]) ts instr maxLen ?_ ?_ hz hret
      · simp at h4 ⊢; omega
      · simp at hlen ⊢; omega
    -- plain whitespace terminator after content
    · intro hz hret
      simp only [applyWrites, List.foldl_cons, List.foldl_nil]
      rw [list_set_append_length, list_set_append_length]
      exact cStr_append_cons_zero ts hz
    -- h5 : b = quote; h6 : acc empty — opening quote
    · intro hz hret
      simp only [consW_eq] at hz hret ⊢
      have hacc : acc = [] := by simpa [List.isEmpty_iff] using h6
      subst hacc
      simp only [applyWrites, List.foldl_cons, List.nil_append]
      have hset : (t :: ts).set 0 b = b :: ts := rfl
      rw [hset]
      exact ih [] (b :: ts) true maxLen (by simpa using hcur)
        (by simpa using hlen) hz hret
    -- closing quote terminator
    · intro hz hret
      simp only [applyWrites, List.foldl_cons, List.foldl_nil]
      rw [list_set_append_length, list_set_append_length]
      exact cStr_append_cons_zero ts hz
    -- ordinary byte, token becomes full
    · intro hz hret
      have hts : ts = [] := by
        have hl : ts.length = 0 := by simp at hlen h7; omega
        simpa using hl
      subst hts
      simp only [applyWrites, List.foldl_cons, List.foldl_nil]
      rw [list_set_append_length]
      rw [list_set_of_length_le (acc ++ [b]) maxLen 0 (by simp at h7 ⊢; omega)]
      exact cStr_all_ne hz
    -- ordinary byte, token not yet full
    · intro hz hret
      simp only [consW_eq] at hz hret ⊢
      simp only [applyWrites, List.foldl_cons]
      rw [list_set_append_length]
      have : acc ++ b :: ts = (acc ++ [b]) ++ ts := by simp
      rw [this]
      refine ih (acc ++ [b]) ts instr maxLen ?_ ?_ hz hret
      · simp at h7 ⊢; omega
      · simp at hlen ⊢; omega

/-- The `(index, byte)` stores of a plain word written starting at a
given cursor position. -/
def wordWritesFrom : Nat → List Nat → List (Nat × Nat)
  | _, [] => []
  | i, b :: w => (i, b) :: wordWritesFrom (i + 1) w

/-- Reading a plain word (no whitespace, no quotes) followed by a
whitespace byte: `get_token` consumes the word and the separator,
reports the word, and stores its bytes followed by the overwritten
separator and the NUL terminator. -/
theorem get_tokenAux_word (sep : Nat) (hsep : isSpaceB sep = true)
    (l : List Nat) (maxLen : Nat) (w : List Nat) :
    ∀ acc : List Nat, (acc = [] → w ≠ []) →
    acc.length + w.length < maxLen →
    (∀ b ∈ w, isSpaceB b = false ∧ (b == 34) = false) →
    get_tokenAux (w ++ sep :: l) acc false maxLen =
      ⟨((acc.length + w.length : Nat) : Int),
       wordWritesFrom acc.length w ++
         [(acc.length + w.length, sep), (acc.length + w.length, 0)],
       acc ++ w, l⟩ := by
  induction w with
  | nil =>
    intro acc hne hlen _
    have hacc : ¬ acc.isEmpty := by
      cases acc with
      | nil => exact absurd rfl (hne rfl)
      | cons a as => simp
    simp [get_tokenAux, hsep, hacc, wordWritesFrom]
  | cons b w ih =>
    intro acc hne hlen hw
    have hb := hw b (by simp)
    have hfull : ¬ ((acc ++ [b]).length = maxLen) := by simp at hlen ⊢; omega
    simp only [List.cons_append, get_tokenAux, hb.1, hb.2, Bool.false_eq_true,
      if_false, hfull, List.append_eq]
    rw [ih (acc ++ [b]) (by simp) (by simp at hlen ⊢; omega)
      (fun x hx => hw x (by simp [hx]))]
    rw [consW_eq]
    have e1 : (acc ++ [b]).length + w.length = acc.length + (b :: w).length := by
      simp; omega
    have e2 : (acc ++ [b]).length = acc.length + 1 := by simp
    rw [e1, e2]
    simp [wordWritesFrom, List.cons_append, List.append_assoc]

/-- Bytes of an ASCII string literal, written as byte values. -/
def tokFILE : List Nat := [70, 73, 76, 69]

/-- ASCII bytes of `TRACK`. -/
def tokTRACK : List Nat := [84, 82, 65, 67, 75]

/-- ASCII bytes of `AUDIO`. -/
def tokAUDIO : List Nat := [65, 85, 68, 73, 79]

/-- ASCII bytes of `INDEX`. -/
def tokINDEX : List Nat := [73, 78, 68, 69, 88]

/-- Loop of `find_token` (`task_database_cue.c:127-147`): repeatedly
read a token into a `calloc`ed buffer of `strlen(token)+1` bytes (so
`get_token` runs with `max_len = strlen(token)`, truncating longer
stream tokens) until `strncmp(tmp_token, token, tmp_len) == 0`; a read
returning 0 or a negative value yields -1.  Because the buffer always
holds a NUL right after the token content and `target` contains no NUL,
the `strncmp` test succeeds exactly when the (possibly truncated) token
equals `target`.  Returns the C return value and the unconsumed
stream.  `fuel` bounds the number of iterations; since every continuing
iteration consumes at least one input byte, `inp.length + 1` units can
never run out. -/
def find_tokenGo : Nat → List Nat → List Nat → Int × List Nat
  | 0, inp, _ => (-1, inp)
  | fuel + 1, inp, target =>
    match get_token inp target.length with
    | ⟨ret, _, tok, rest⟩ =>
      if ret ≤ 0 then (-1, rest)
      else if tok = target then (0, rest)
      else find_tokenGo fuel rest target

/-- `find_token(fd, token)`:  the initial `strncmp` against the zeroed
buffer succeeds immediately only for an empty target. -/
def find_token (inp target : List Nat) : Int × List Nat :=
  if target.isEmpty then (0, inp) else find_tokenGo (inp.length + 1) inp target

/-- Bounded unfolding of the token sequence of a stream: the tokens
obtained by repeated `get_token` calls with buffer capacity `maxLen`,
up to the first call returning 0 or an error. -/
def tokenizeGo : Nat → List Nat → Nat → List (List Nat)
  | 0, _, _ => []
  | fuel + 1, inp, maxLen =>
    match get_token inp maxLen with
    | ⟨ret, _, tok, rest⟩ =>
      if ret ≤ 0 then []
      else tok :: tokenizeGo fuel rest maxLen

/-- The token sequence of a stream (`inp.length + 1` units of fuel are
always enough, as every token consumes at least one byte). -/
def tokenize (inp : List Nat) (maxLen : Nat) : List (List Nat) :=
  tokenizeGo (inp.length + 1) inp maxLen

/-- C1.  The claim states that `get_token` never stores a byte outside
a destination buffer of capacity `max_len`.  The code violates this:
when a token's content reaches `max_len` bytes, the terminating NUL is
stored at index `max_len`, one byte past the end of the buffer (and the
caller `find_first_data_track` passes a buffer of exactly `max_len =
MAX_TOKEN_LEN` bytes).  Concretely, on the stream `"abc "` with
`max_len = 2` the code performs the stores
`[(0,'a'), (1,'b'), (2,NUL)]` — the store at index 2 is outside a
buffer of capacity 2 — while the returned length 2 still respects the
capacity bound. -/
theorem C1_get_token_stores_at_max_len :
    (get_token [97, 98, 99, 32] 2).writes = [(0, 97), (1, 98), (2, 0)] ∧
    (2, 0) ∈ (get_token [97, 98, 99, 32] 2).writes ∧
    ¬ (∀ w ∈ (get_token [97, 98, 99, 32] 2).writes, w.1 < 2) ∧
    (get_token [97, 98, 99, 32] 2).ret = 2 := by
  decide

/-- C9 counterexample.  `find_token(fd, "INDEX")` returns 0 on the
stream `"INDEXFOO\n"`, whose token stream (read with the
`MAX_TOKEN_LEN` capacity used everywhere else) is the single token
`INDEXFOO`: no token of the stream is exactly equal to the target, the
target is merely a prefix of a longer stream token, yet the scan
reports success (the comparison buffer is `strlen("INDEX")` bytes, so
the token is truncated to `INDEX` before the comparison). -/
theorem C9_find_token_matches_proper_prefix_counterexample :
    (find_token (tokINDEX ++ [70, 79, 79, 10]) tokINDEX).1 = 0 ∧
    tokenize (tokINDEX ++ [70, 79, 79, 10]) 255 = [tokINDEX ++ [70, 79, 79]] ∧
    tokINDEX ∉ tokenize (tokINDEX ++ [70, 79, 79, 10]) 255 := by
  decide

/-- C9 amended.  `find_token(fd, target)` (for a non-empty target)
returns 0 exactly when the stream, tokenized with buffer capacity
`strlen(target)` (so stream tokens are truncated to that length),
yields a token equal to `target`; otherwise — the token stream is
exhausted first — it returns -1, which is also the value returned when
the allocation of the comparison buffer fails. -/
theorem C9_find_token_succeeds_iff_truncated_token_matches
    (inp target : List Nat) (ht : target ≠ []) :
    (find_token inp target).1 = 0 ↔ target ∈ tokenize inp target.length := by
  have hne : ¬ target.isEmpty := by
    cases target with
    | nil => exact absurd rfl ht
    | cons a l => simp
  rw [find_token, if_neg hne, tokenize]
  clear ht hne
  have main : ∀ f1 : Nat, ∀ f2 : Nat, ∀ inp : List Nat,
      inp.length < f1 → inp.length < f2 →
      ((find_tokenGo f1 inp target).1 = 0 ↔
        target ∈ tokenizeGo f2 inp target.length) := by
    intro f1
    induction f1 with
    | zero => intro f2 inp h1 _; exact absurd h1 (Nat.not_lt_zero _)
    | succ f1 ih =>
      intro f2 inp h1 h2
      cases f2 with
      | zero => exact absurd h2 (Nat.not_lt_zero _)
      | succ f2 =>
        rcases hr : get_token inp target.length with ⟨ret, ws, tok, rest⟩
        have hlt : 0 < ret → rest.length < inp.length := by
          intro hpos
          have h5 := get_token_rest_lt inp target.length
          rw [hr] at h5
          exact h5 hpos
        simp only [find_tokenGo, tokenizeGo, hr]
        by_cases h0 : ret ≤ 0
        · simp [h0]
        · simp only [h0, if_false]
          by_cases heq : tok = target
          · simp [heq]
          · simp only [heq, if_false]
            have hlt2 : rest.length < inp.length := hlt (by omega)
            rw [ih f2 rest (by omega) (by omega)]
            simp only [List.mem_cons]
            constructor
            · exact fun h => Or.inr h
            · rintro (h | h)
              · exact absurd h.symm heq
              · exact h
  exact main (inp.length + 1) (inp.length + 1) inp (by omega) (by omega)

/-- C9 amended, witness: on the stream `"A INDEX B\n"` the scan finds
the exact token `INDEX`, and the token appears in the truncated token
stream. -/
theorem C9_find_token_iff_witness :
    tokINDEX ≠ [] ∧
    ((find_token ([65, 32] ++ tokINDEX ++ [32, 66, 10]) tokINDEX).1 = 0 ↔
      tokINDEX ∈ tokenize ([65, 32] ++ tokINDEX ++ [32, 66, 10]) tokINDEX.length) :=
  ⟨by decide,
   C9_find_token_succeeds_iff_truncated_token_matches
     ([65, 32] ++ tokINDEX ++ [32, 66, 10]) tokINDEX (by decide)⟩

/-- Whitespace in the sense of C `isspace`, skipped by `sscanf`'s `%d`
conversions. -/
def sscanfSpace (b : Nat) : Bool :=
  b == 32 || b == 9 || b == 10 || b == 11 || b == 12 || b == 13

/-- One `%02d` conversion of `sscanf`: skip whitespace, then consume at
most two characters (an optional sign counts towards the width)
forming a decimal integer; fail if no digit is found. -/
def scanField2 (l : List Nat) : Option (Int × List Nat) :=
  match l.dropWhile sscanfSpace with
  | [] => none
  | b :: rest =>
    if isDigitB b then
      match rest with
      | c :: rest2 =>
        if isDigitB c then some (((b : Int) - 48) * 10 + ((c : Int) - 48), rest2)
        else some ((b : Int) - 48, rest)
      | [] => some ((b : Int) - 48, [])
    else if b == 45 then
      match rest with
      | c :: rest2 => if isDigitB c then some (-((c : Int) - 48), rest2) else none
      | [] => none
    else if b == 43 then
      match rest with
      | c :: rest2 => if isDigitB c then some ((c : Int) - 48, rest2) else none
      | [] => none
    else none

/-- `sscanf(tmp_token, "%02d:%02d:%02d", &m, &s, &f)` assigns three
fields iff each `%02d` converts and each literal `:` matches; the call
site treats fewer than three assignments as a parse error. -/
def sscanfMSF (l : List Nat) : Option (Int × Int × Int) :=
  match scanField2 l with
  | none => none
  | some (m, r1) =>
    match r1 with
    | 58 :: r2 =>
      match scanField2 r2 with
      | none => none
      | some (s, r3) =>
        match r3 with
        | 58 :: r4 =>
          match scanField2 r4 with
          | none => none
          | some (f, _) => some (m, s, f)
        | _ => none
    | _ => none

/-- Modelled from the spec: `fill_pathname_basedir` (libretro-common
`file_path.c`, which is not under `src/`) — the directory prefix of a
path, up to and including its final path separator. -/
def fill_pathname_basedir (p : List Nat) : List Nat :=
  (p.reverse.dropWhile (fun b => !(b == 47))).reverse

/-- Modelled from the spec: `fill_pathname_join` (libretro-common
`file_path.c`, which is not under `src/`) — append the file name to the
directory, inserting a separator when the directory does not already
end in one, truncated to the destination capacity (`max_len` bytes
including the NUL terminator). -/
def fill_pathname_join (dir name : List Nat) (maxLen : Nat) : List Nat :=
  (if dir = [] ∨ dir.getLast? = some 47 then dir ++ name
   else dir ++ 47 :: name).take (maxLen - 1)

/-- Resource events of one `find_first_data_track` call: allocation and
release of the token working buffer, creation and closing of the stream
handle, allocation and release of the per-`FILE` directory buffer. -/
inductive REvent where
  | allocTok : REvent
  | initFd : REvent
  | closeFd : REvent
  | freeTok : REvent
  | allocDir : REvent
  | freeDir : REvent
deriving Repr, DecidableEq

/-- Value stored through a 32-bit `int` lvalue: the two's-complement
representative of `v` modulo `2 ^ 32`, in `[-2 ^ 31, 2 ^ 31)`.  The C
expression `((m * 60) * (s * 75) * f) * 25` is computed in `int`
arithmetic and stored through an `int32_t *`; every intermediate
product is congruent to the exact product modulo `2 ^ 32`, so one
final reduction models the whole wrapping chain. -/
def int32ofInt (v : Int) : Int := (v + 2 ^ 31) % 2 ^ 32 - 2 ^ 31

/-- Raw outcome of the cue-sheet scanning loop, before the ambient
`errno` is consulted: the token stream ran out without a data track
(`rv = -EINVAL`), the timestamp failed to parse (`goto error`, which
returns `-errno`), or a data track was found with the given byte
offset. -/
inductive FdtOut where
  | noTrack : FdtOut
  | parseError : FdtOut
  | found : Int → FdtOut
deriving Repr, DecidableEq

/-- Result of `find_first_data_track`: C return value, the value stored
through the `offset` out-parameter (if any), the contents written into
the caller's `track_path` buffer (if any), and the resource events. -/
structure FDTRes where
  ret : Int
  offset : Option Int
  track : Option (List Nat)
  events : List REvent
deriving Repr, DecidableEq

/-- Prepend the allocation and release of the per-`FILE` `cue_dir`
buffer to the events of the rest of the scan. -/
def withDirEvents : FdtOut × Option (List Nat) × List REvent →
    FdtOut × Option (List Nat) × List REvent
  | (o, tr, ev) => (o, tr, REvent.allocDir :: REvent.freeDir :: ev)

/-- `withDirEvents` in terms of projections. -/
theorem withDirEvents_eq (r : FdtOut × Option (List Nat) × List REvent) :
    withDirEvents r = (r.1, r.2.1, REvent.allocDir :: REvent.freeDir :: r.2.2) := by
  rcases r with ⟨o, tr, ev⟩
  rfl

/-- Main token loop of `find_first_data_track`
(`task_database_cue.c:432-471`).  `buf` is the 255-byte `tmp_token`
buffer (its C string is what `string_is_equal`/`sscanf` see), `track`
the contents written to the caller's `track_path` so far.  `FILE`
records the referenced file resolved against the cue directory; `TRACK`
reads the number and type tokens, skips `AUDIO` tracks, and otherwise
scans to `INDEX`, discards the index number, and parses the `MM:SS:FF`
timestamp, computing `((m * 60) * (s * 75) * f) * 25` in 32-bit `int`
arithmetic (`int32ofInt`).  `fuel` bounds the iterations; every
continuing iteration consumes at least one input byte, so
`inp.length + 1` units can never run out. -/
def fdtGo (cueDir : List Nat) (maxPath : Nat) :
    Nat → List Nat → List Nat → Option (List Nat) →
    FdtOut × Option (List Nat) × List REvent
  | 0, _, _, track => (.noTrack, track, [])
  | fuel + 1, inp, buf, track =>
    match get_token inp 255 with
    | ⟨ret, ws, _, rest⟩ =>
      if ret ≤ 0 then (.noTrack, track, [])
      else
        let buf1 := applyWrites buf ws
        if cStr buf1 = tokFILE then
          match get_token rest 255 with
          | ⟨_, ws2, _, rest2⟩ =>
            let buf2 := applyWrites buf1 ws2
            withDirEvents (fdtGo cueDir maxPath fuel rest2 buf2
              (some (fill_pathname_join cueDir (cStr buf2) maxPath)))
        else if cStr buf1 = tokTRACK then
          match get_token rest 255 with
          | ⟨_, ws2, _, rest2⟩ =>
            let buf2 := applyWrites buf1 ws2
            match get_token rest2 255 with
            | ⟨_, ws3, _, rest3⟩ =>
              let buf3 := applyWrites buf2 ws3
              if cStr buf3 = tokAUDIO then
                fdtGo cueDir maxPath fuel rest3 buf3 track
              else
                match find_token rest3 tokINDEX with
                | (_, rest4) =>
                  match get_token rest4 255 with
                  | ⟨_, ws4, _, rest5⟩ =>
                    let buf4 := applyWrites buf3 ws4
                    match get_token rest5 255 with
                    | ⟨_, ws5, _, _⟩ =>
                      let buf5 := applyWrites buf4 ws5
                      match sscanfMSF (cStr buf5) with
                      | none => (.parseError, track, [])
                      | some (m, s, f) =>
                          (.found (int32ofInt ((((m * 60) * (s * 75)) * f) * 25)),
                           track, [])
        else
          fdtGo cueDir maxPath fuel rest buf1 track

/-- `find_first_data_track(cue_path, offset, track_path, max_len)`
(`task_database_cue.c:405-485`).  `init_ok`/`open_ok` say whether
`intfstream_init` and `intfstream_open` succeed, `errnoV` is the
ambient `errno` value read by `return -errno`, and `content` is the
byte content of the cue file.  The token working buffer is allocated
before the stream handle is created; when `intfstream_init` fails the
function returns `-errno` without freeing it. -/
def find_first_data_track (init_ok open_ok : Bool) (errnoV : Int)
    (cue_path : List Nat) (max_len : Nat) (content : List Nat) : FDTRes :=
  if !init_ok then ⟨-errnoV, none, none, [REvent.allocTok]⟩
  else if !open_ok then
    ⟨-errnoV, none, none, [REvent.allocTok, REvent.initFd, REvent.freeTok, REvent.closeFd]⟩
  else
    match fdtGo (fill_pathname_basedir cue_path) max_len (content.length + 1)
        content (List.replicate 255 0) none with
    | (out, track, evs0) =>
      let evs := REvent.allocTok :: REvent.initFd ::
        (evs0 ++ [REvent.freeTok, REvent.closeFd])
      match out with
      | .noTrack => ⟨-22, none, track, evs⟩
      | .parseError => ⟨-errnoV, none, track, evs⟩
      | .found off => ⟨0, some off, track, evs⟩

/-- Byte content of the path `/discs/game.cue`. -/
def cuePathBytes : List Nat :=
  [47, 100, 105, 115, 99, 115, 47, 103, 97, 109, 101, 46, 99, 117, 101]

/-- C4.  The claim states that the token working buffer is freed and
the opened stream handle closed on every execution path.  The code
violates this on the stream-handle initialization-failure path:
`tmp_token` is allocated first, and when `intfstream_init` returns NULL
the function returns `-errno` immediately without freeing it (no handle
exists on that path, so no close is due).  Evaluating the model on that
path shows the allocation event with no matching free. -/
theorem C4_find_first_data_track_leaks_buffer_on_init_failure :
    (find_first_data_track false true 7 cuePathBytes 4096 []).events = [REvent.allocTok] ∧
    REvent.freeTok ∉ (find_first_data_track false true 7 cuePathBytes 4096 []).events ∧
    (find_first_data_track false true 7 cuePathBytes 4096 []).ret = -7 := by
  decide

/-- Byte content of a cue sheet whose first non-`AUDIO` track has the
unparsable timestamp token `banana`, followed by a further well-formed
data track:

`TRACK 01 MODE1/2352\nINDEX 01 banana\nTRACK 02 MODE1/2352\nINDEX 01 00:02:00\n` -/
def cueMalformed : List Nat :=
  [84, 82, 65, 67, 75, 32, 48, 49, 32, 77, 79, 68, 69, 49, 47, 50, 51, 53, 50, 10,
   73, 78, 68, 69, 88, 32, 48, 49, 32, 98, 97, 110, 97, 110, 97, 10,
   84, 82, 65, 67, 75, 32, 48, 50, 32, 77, 79, 68, 69, 49, 47, 50, 51, 53, 50, 10,
   73, 78, 68, 69, 88, 32, 48, 49, 32, 48, 48, 58, 48, 50, 58, 48, 48, 10]

/-- C6 counterexample.  On a cue sheet whose first data track carries
the malformed timestamp `banana`, the code takes the `goto error` path
and returns `-errno`; with the ambient `errno` equal to 0 (its value at
program start, never set by the successful preceding calls) the
returned value is 0 — the success return value, not a negative error —
so the claim that a malformed timestamp yields a negative error fails.
The offset is still never written and the later well-formed track is
not scanned. -/
theorem C6_malformed_timestamp_errno_zero_counterexample :
    (find_first_data_track true true 0 cuePathBytes 4096 cueMalformed).ret = 0 ∧
    ¬ (find_first_data_track true true 0 cuePathBytes 4096 cueMalformed).ret < 0 ∧
    (find_first_data_track true true 0 cuePathBytes 4096 cueMalformed).offset = none := by
  decide

/-- C6 amended.  A malformed timestamp on the first non-`AUDIO` track
is a hard stop: for every ambient `errno` value `e` the function
returns `-e` (negative precisely when `errno` is positive, and equal to
the success value 0 when `errno` is 0), never stores an offset, and
does not skip the track to scan the later well-formed data track. -/
theorem C6_malformed_timestamp_hard_stop (e : Int) :
    (find_first_data_track true true e cuePathBytes 4096 cueMalformed).ret = -e ∧
    (find_first_data_track true true e cuePathBytes 4096 cueMalformed).offset = none ∧
    ((0 : Int) < e →
      (find_first_data_track true true e cuePathBytes 4096 cueMalformed).ret < 0) := by
  have h : find_first_data_track true true e cuePathBytes 4096 cueMalformed =
      ⟨-e, none, none,
        [REvent.allocTok, REvent.initFd, REvent.freeTok, REvent.closeFd]⟩ := rfl
  rw [h]
  refine ⟨rfl, rfl, fun he => ?_⟩
  show -e < (0 : Int)
  omega

/-- Witness for the C6 hard-stop theorem at `errno = 5`. -/
theorem C6_malformed_timestamp_hard_stop_witness :
    (0 : Int) < 5 ∧
    (find_first_data_track true true 5 cuePathBytes 4096 cueMalformed).ret = -5 ∧
    (find_first_data_track true true 5 cuePathBytes 4096 cueMalformed).ret < 0 := by
  obtain ⟨h1, h2, h3⟩ := C6_malformed_timestamp_hard_stop 5
  exact ⟨by decide, h1, h3 (by decide)⟩

/-- Byte content of the cue sheet

`FILE "foo.bin" BINARY\nTRACK 01 AUDIO\nINDEX 01 00:00:00\nFILE "bar.bin" BINARY\nTRACK 02 MODE2/2352\nINDEX 01 `

up to (not including) the timestamp of the data track. -/
def cueGoodPre : List Nat :=
  [70, 73, 76, 69, 32, 34, 102, 111, 111, 46, 98, 105, 110, 34, 32, 66, 73, 78,
   65, 82, 89, 10, 84, 82, 65, 67, 75, 32, 48, 49, 32, 65, 85, 68, 73, 79, 10,
   73, 78, 68, 69, 88, 32, 48, 49, 32, 48, 48, 58, 48, 48, 58, 48, 48, 10, 70,
   73, 76, 69, 32, 34, 98, 97, 114, 46, 98, 105, 110, 34, 32, 66, 73, 78, 65,
   82, 89, 10, 84, 82, 65, 67, 75, 32, 48, 50, 32, 77, 79, 68, 69, 50, 47, 50,
   51, 53, 50, 10, 73, 78, 68, 69, 88, 32, 48, 49, 32]

/-- The timestamp token `MM:SS:FF` built from six digit bytes. -/
def tsWord (x1 x0 y1 y0 z1 z0 : Nat) : List Nat :=
  [x1, x0, 58, y1, y0, 58, z1, z0]

/-- A cue sheet with one `AUDIO` track followed by one `MODE2/2352`
track whose `INDEX 01` timestamp is the given `MM:SS:FF` token. -/
def cueGood (x1 x0 y1 y0 z1 z0 : Nat) : List Nat :=
  cueGoodPre ++ (tsWord x1 x0 y1 y0 z1 z0 ++ [10])

/-- Bytes of `/discs/bar.bin`, the data track's file resolved against
the cue sheet's directory. -/
def trackResBytes : List Nat :=
  [47, 100, 105, 115, 99, 115, 47, 98, 97, 114, 46, 98, 105, 110]

/-- Contents of the 255-byte `tmp_token` buffer of
`find_first_data_track` on the `cueGood` sheet right before the
timestamp token is read: the index-number token `01` followed by stale
bytes of earlier tokens. -/
def cueBuf4 : List Nat :=
  [48, 49, 0, 69, 50, 47, 50, 51, 53, 50] ++ List.replicate 245 0

set_option maxHeartbeats 2000000 in
/-- Evaluation of the cue-scanning loop on the `cueGood` sheet up to
the point where the timestamp token is read: the two `FILE` entries are
recorded, the `AUDIO` track is skipped, and the result is determined by
reading the timestamp token into the buffer and parsing it.  The
timestamp digits are never inspected before this point, so the
equation holds by computation. -/
theorem fdtGo_cueGood_unfold (x1 x0 y1 y0 z1 z0 : Nat) :
    fdtGo (fill_pathname_basedir cuePathBytes) 4096
        ((cueGood x1 x0 y1 y0 z1 z0).length + 1)
        (cueGood x1 x0 y1 y0 z1 z0) (List.replicate 255 0) none =
      withDirEvents (withDirEvents
        (match get_token (tsWord x1 x0 y1 y0 z1 z0 ++ [10]) 255 with
         | ⟨_, ws5, _, _⟩ =>
           match sscanfMSF (cStr (applyWrites cueBuf4 ws5)) with
           | none => ((FdtOut.parseError : FdtOut),
               (some trackResBytes : Option (List Nat)), ([] : List REvent))
           | some (m, s, f) =>
               (FdtOut.found (int32ofInt ((((m * 60) * (s * 75)) * f) * 25)),
                some trackResBytes, []))) := rfl

/-- C2.  On a cue sheet holding a `FILE` entry, an `AUDIO` track, a
further `FILE` entry and then a `MODE2/2352` track with an
`INDEX 01 MM:SS:FF` entry, `find_first_data_track` skips the audio
track, returns 0, writes the track path obtained by resolving the most
recent `FILE` token (`bar.bin`) against the cue file's directory
(`/discs/`), and stores the offset `((m * 60) * (s * 75) * f) * 25`
computed from the three parsed timestamp fields in 32-bit `int`
arithmetic — the implementation's exact arithmetic, wraparound included
(in particular `00:02:00` yields offset 0). -/
theorem C2_find_first_data_track_skips_audio_and_computes_offset
    (e : Int) (x1 x0 y1 y0 z1 z0 : Nat)
    (hx1 : 48 ≤ x1) (hx1b : x1 ≤ 57) (hx0 : 48 ≤ x0) (hx0b : x0 ≤ 57)
    (hy1 : 48 ≤ y1) (hy1b : y1 ≤ 57) (hy0 : 48 ≤ y0) (hy0b : y0 ≤ 57)
    (hz1 : 48 ≤ z1) (hz1b : z1 ≤ 57) (hz0 : 48 ≤ z0) (hz0b : z0 ≤ 57) :
    find_first_data_track true true e cuePathBytes 4096
        (cueGood x1 x0 y1 y0 z1 z0) =
      ⟨0,
       some (int32ofInt ((((((x1 : Int) - 48) * 10 + ((x0 : Int) - 48)) * 60) *
              ((((y1 : Int) - 48) * 10 + ((y0 : Int) - 48)) * 75) *
              (((z1 : Int) - 48) * 10 + ((z0 : Int) - 48))) * 25)),
       some trackResBytes,
       [REvent.allocTok, REvent.initFd, REvent.allocDir, REvent.freeDir,
        REvent.allocDir, REvent.freeDir, REvent.freeTok, REvent.closeFd]⟩ := by
  -- per-byte facts about the timestamp digits
  have hw : ∀ b ∈ tsWord x1 x0 y1 y0 z1 z0,
      isSpaceB b = false ∧ (b == 34) = false := by
    intro b hb
    simp only [tsWord, List.mem_cons, List.not_mem_nil, or_false] at hb
    rcases hb with rfl | rfl | rfl | rfl | rfl | rfl | rfl | rfl <;>
      simp only [isSpaceB, Bool.or_eq_false_iff, beq_eq_false_iff_ne, ne_eq] <;>
      omega
  have hnz : ∀ b ∈ tsWord x1 x0 y1 y0 z1 z0, b ≠ 0 := by
    intro b hb
    simp only [tsWord, List.mem_cons, List.not_mem_nil, or_false] at hb
    rcases hb with rfl | rfl | rfl | rfl | rfl | rfl | rfl | rfl <;> omega
  -- the timestamp token is read as a plain word
  have hword : get_token (tsWord x1 x0 y1 y0 z1 z0 ++ [10]) 255 =
      ⟨8, wordWritesFrom 0 (tsWord x1 x0 y1 y0 z1 z0) ++ [(8, 10), (8, 0)],
       tsWord x1 x0 y1 y0 z1 z0, []⟩ :=
    get_tokenAux_word 10 rfl [] 255 (tsWord x1 x0 y1 y0 z1 z0) []
      (fun _ => by simp [tsWord]) (by simp [tsWord]) hw
  -- replaying its stores into the stale buffer leaves the token as the C string
  have happ : applyWrites cueBuf4
      (wordWritesFrom 0 (tsWord x1 x0 y1 y0 z1 z0) ++ [(8, 10), (8, 0)]) =
      tsWord x1 x0 y1 y0 z1 z0 ++ 0 :: 50 :: List.replicate 245 0 := rfl
  have hcs : cStr (tsWord x1 x0 y1 y0 z1 z0 ++ 0 :: 50 :: List.replicate 245 0) =
      tsWord x1 x0 y1 y0 z1 z0 := cStr_append_cons_zero _ hnz
  -- parsing the timestamp
  have f58 : sscanfSpace 58 = false := rfl
  have fx1 : sscanfSpace x1 = false := by
    simp only [sscanfSpace, Bool.or_eq_false_iff, beq_eq_false_iff_ne, ne_eq]; omega
  have fx0 : sscanfSpace x0 = false := by
    simp only [sscanfSpace, Bool.or_eq_false_iff, beq_eq_false_iff_ne, ne_eq]; omega
  have fy1 : sscanfSpace y1 = false := by
    simp only [sscanfSpace, Bool.or_eq_false_iff, beq_eq_false_iff_ne, ne_eq]; omega
  have fy0 : sscanfSpace y0 = false := by
    simp only [sscanfSpace, Bool.or_eq_false_iff, beq_eq_false_iff_ne, ne_eq]; omega
  have fz1 : sscanfSpace z1 = false := by
    simp only [sscanfSpace, Bool.or_eq_false_iff, beq_eq_false_iff_ne, ne_eq]; omega
  have fz0 : sscanfSpace z0 = false := by
    simp only [sscanfSpace, Bool.or_eq_false_iff, beq_eq_false_iff_ne, ne_eq]; omega
  have dx1 : isDigitB x1 = true := by simp only [isDigitB]; simp; omega
  have dx0 : isDigitB x0 = true := by simp only [isDigitB]; simp; omega
  have dy1 : isDigitB y1 = true := by simp only [isDigitB]; simp; omega
  have dy0 : isDigitB y0 = true := by simp only [isDigitB]; simp; omega
  have dz1 : isDigitB z1 = true := by simp only [isDigitB]; simp; omega
  have dz0 : isDigitB z0 = true := by simp only [isDigitB]; simp; omega
  have hts : sscanfMSF (tsWord x1 x0 y1 y0 z1 z0) =
      some (((x1 : Int) - 48) * 10 + ((x0 : Int) - 48),
            ((y1 : Int) - 48) * 10 + ((y0 : Int) - 48),
            ((z1 : Int) - 48) * 10 + ((z0 : Int) - 48)) := by
    simp only [tsWord, sscanfMSF, scanField2, List.dropWhile_cons, fx1, fx0,
      fy1, fy0, fz1, fz0, f58, Bool.false_eq_true, if_false, dx1, dx0, dy1,
      dy0, dz1, dz0, if_true]
  -- assemble
  have hfdt : fdtGo (fill_pathname_basedir cuePathBytes) 4096
      ((cueGood x1 x0 y1 y0 z1 z0).length + 1)
      (cueGood x1 x0 y1 y0 z1 z0) (List.replicate 255 0) none =
      (FdtOut.found (int32ofInt ((((((x1 : Int) - 48) * 10 + ((x0 : Int) - 48)) * 60) *
              ((((y1 : Int) - 48) * 10 + ((y0 : Int) - 48)) * 75) *
              (((z1 : Int) - 48) * 10 + ((z0 : Int) - 48))) * 25)),
       some trackResBytes,
       [REvent.allocDir, REvent.freeDir, REvent.allocDir, REvent.freeDir]) := by
    rw [fdtGo_cueGood_unfold, hword]
    simp only [happ, hcs, hts, withDirEvents]
  simp only [find_first_data_track, Bool.not_true, Bool.false_eq_true,
    if_false, hfdt]
  rfl

/-- C2 witness: the timestamp `00:02:00` (digit bytes 48 48, 48 50,
48 48) yields offset 0; `23:45:12` yields
`((23 * 60) * (45 * 75) * 12) * 25 = 1397250000` — the implementation's
arithmetic rather than the standard CD addressing formula, in range so
the 32-bit store is exact; and `99:99:99`, whose exact product
`109158637500` exceeds `INT32_MAX`, stores the wrapped value
`1784455100 = 109158637500 - 25 * 2 ^ 32`. -/
theorem C2_find_first_data_track_witness :
    find_first_data_track true true 3 cuePathBytes 4096
        (cueGood 48 48 48 50 48 48) =
      ⟨0, some 0, some trackResBytes,
       [REvent.allocTok, REvent.initFd, REvent.allocDir, REvent.freeDir,
        REvent.allocDir, REvent.freeDir, REvent.freeTok, REvent.closeFd]⟩ ∧
    find_first_data_track true true 3 cuePathBytes 4096
        (cueGood 50 51 52 53 49 50) =
      ⟨0, some 1397250000, some trackResBytes,
       [REvent.allocTok, REvent.initFd, REvent.allocDir, REvent.freeDir,
        REvent.allocDir, REvent.freeDir, REvent.freeTok, REvent.closeFd]⟩ ∧
    find_first_data_track true true 3 cuePathBytes 4096
        (cueGood 57 57 57 57 57 57) =
      ⟨0, some 1784455100, some trackResBytes,
       [REvent.allocTok, REvent.initFd, REvent.allocDir, REvent.freeDir,
        REvent.allocDir, REvent.freeDir, REvent.freeTok, REvent.closeFd]⟩ := by
  refine ⟨?_, ?_, ?_⟩
  · have h := C2_find_first_data_track_skips_audio_and_computes_offset 3
      48 48 48 50 48 48 (by omega) (by omega) (by omega) (by omega) (by omega)
      (by omega) (by omega) (by omega) (by omega) (by omega) (by omega) (by omega)
    rw [h]
    norm_num [int32ofInt]
  · have h := C2_find_first_data_track_skips_audio_and_computes_offset 3
      50 51 52 53 49 50 (by omega) (by omega) (by omega) (by omega) (by omega)
      (by omega) (by omega) (by omega) (by omega) (by omega) (by omega) (by omega)
    rw [h]
    norm_num [int32ofInt]
  · have h := C2_find_first_data_track_skips_audio_and_computes_offset 3
      57 57 57 57 57 57 (by omega) (by omega) (by omega) (by omega) (by omega)
      (by omega) (by omega) (by omega) (by omega) (by omega) (by omega) (by omega)
    rw [h]
    norm_num [int32ofInt]

/-! ### Seekable-stream model -/

/-- Number of bytes an `intfstream_read` of `n` bytes at position `pos`
returns on a stream of `size` bytes: `min n (size - pos)`.  (The
defensive guard `pos ≤ size` does not change the value — for `pos`
beyond the end the saturating subtraction is 0 — it only keeps
reduction from unfolding the subtraction against a symbolic size.) -/
def readCount (size pos n : Nat) : Nat :=
  if pos ≤ size then min n (size - pos) else 0

/-- `readCount` is the saturating read-length formula. -/
theorem readCount_eq (size pos n : Nat) : readCount size pos n = min n (size - pos) := by
  unfold readCount
  split_ifs with h
  · rfl
  · have : size - pos = 0 := by omega
    omega

/-- Read `n` bytes at position `pos` from the stream into the start of
a buffer: indices below the returned byte count receive stream bytes,
the rest of the buffer keeps its previous contents. -/
def readInto (buf : Nat → Nat) (f : Nat → Nat) (size pos n : Nat) : Nat → Nat :=
  fun i => if i < readCount size pos n then f (pos + i) else buf i

/-! ### ISO9660 boot-record resolver (`detect_ps1_game_sub`) -/

/-- `strncasecmp(buf + off, pat, pat.length) == 0` for a NUL-free
pattern: every byte matches case-insensitively (a premature NUL in the
buffer differs from the corresponding non-NUL pattern byte, so the
equality captures `strncasecmp` exactly). -/
def strncasecmpEq (buf : Nat → Nat) (off : Nat) (pat : List Nat) : Bool :=
  (List.range pat.length).all (fun i => tolowerB (buf (off + i)) == tolowerB (pat.getD i 0))

/-- ASCII bytes of `SYSTEM.CNF;1`. -/
def sysCnfName : List Nat := [83, 89, 83, 84, 69, 77, 46, 67, 78, 70, 59, 49]

/-- ASCII bytes of `boot`. -/
def bootName : List Nat := [98, 111, 111, 116]

/-- Directory-record walk of `detect_ps1_game_sub`
(`task_database_cue.c:185-195`): while the cursor is inside the 4096
byte window, a zero record length is an error, a record whose name
field (offset 33) is `SYSTEM.CNF;1` is the match, and otherwise the
cursor advances by the record length.  Each step advances the cursor by
at least one, so 4097 units of fuel can never run out. -/
def findCnfRec (buf : Nat → Nat) : Nat → Nat → Option Nat
  | 0, _ => none
  | fuel + 1, t =>
    if t ≥ 4096 then none
    else if buf t = 0 then none
    else if strncasecmpEq buf (t + 33) sysCnfName then some t
    else findCnfRec buf fuel (t + buf t)

/-- Scan for the case-insensitive substring `boot`
(`task_database_cue.c:205-210`): stop at a NUL (error) or at the match.
The buffer is NUL-terminated at index 256, so 300 units of fuel can
never run out. -/
def findBootRec (buf : Nat → Nat) : Nat → Nat → Option Nat
  | 0, _ => none
  | fuel + 1, u =>
    if buf u = 0 then none
    else if strncasecmpEq buf u bootName then some u
    else findBootRec buf fuel (u + 1)

/-- Walk to the end of the `BOOT` line
(`task_database_cue.c:212-219`), tracking the position right after the
last `\` or `:` seen — the bare executable filename. -/
def bootFileRec (buf : Nat → Nat) : Nat → Nat → Nat → Nat
  | 0, _, bf => bf
  | fuel + 1, v, bf =>
    if buf v = 0 ∨ buf v = 10 then bf
    else bootFileRec buf fuel (v + 1) (if buf v = 92 ∨ buf v = 58 then v + 1 else bf)

/-- The tail of the identifier (`task_database_cue.c:231-236`): copy
alphanumeric bytes, skipping a `.` that immediately follows a copied
byte. -/
def gameIdTail (buf : Nat → Nat) : Nat → Nat → List Nat
  | 0, _ => []
  | fuel + 1, w =>
    if isalnumB (buf w) then
      buf w :: gameIdTail buf fuel (if buf (w + 1) = 46 then w + 2 else w + 1)
    else []

/-- The little-endian `unsigned int` assembled by reading 4 bytes at
offset 0 into a zero-initialized `mode_test`
(`task_database_cue.c:166-169`); bytes past the end of the stream stay
zero. -/
def mtAssemble (f : Nat → Nat) (size : Nat) : Nat :=
  (if 0 < readCount size 0 4 then f 0 else 0) +
  (if 1 < readCount size 0 4 then f 1 else 0) * 256 +
  (if 2 < readCount size 0 4 then f 2 else 0) * 65536 +
  (if 3 < readCount size 0 4 then f 3 else 0) * 16777216

/-- `MODETEST_VAL` on a little-endian build
(`task_database_cue.c:50`). -/
def MODETEST_VAL : Nat := 0xffffff00

/-- `detect_ps1_game_sub(fp, game_id, sub_channel_mixed)`
(`task_database_cue.c:150-244`).  `img`/`size` are the stream, `buf0`
the uninitialised contents of the local 4096-byte working buffer.
Returns the bytes written into `game_id` on success (the C function
returns 1), `none` on the `error` paths (returns 0, `game_id`
untouched). -/
def detect_ps1_game_sub (img : Nat → Nat) (size : Nat)
    (sub_channel_mixed : Bool) (buf0 : Nat → Nat) : Option (List Nat) :=
  let buf := fun i => if i = 0 then 0 else buf0 i
  let is_mode1 : Bool :=
    if sub_channel_mixed = false ∧ size &&& 0x7FF = 0 then
      decide (mtAssemble img size ≠ MODETEST_VAL)
    else false
  let skip := if is_mode1 then 0 else 24
  let frame_size : Nat :=
    if sub_channel_mixed then 2448 else if is_mode1 then 2048 else 2352
  let buf := readInto buf img size (156 + skip + 16 * frame_size) 6
  let cd1 := buf 2 + buf 3 * 256 + buf 4 * 65536
  let buf := readInto buf img size (skip + cd1 * frame_size) 4096
  match findCnfRec buf 4097 0 with
  | none => none
  | some t =>
    let cd2 := buf (t + 2) + buf (t + 3) * 256 + buf (t + 4) * 65536
    let buf := readInto buf img size (skip + cd2 * frame_size) 256
    let buf := fun i => if i = 256 then 0 else buf i
    match findBootRec buf 300 0 with
    | none => none
    | some u =>
      let bf := bootFileRec buf 300 u u
      let w := bf + 4
      let w2 := if isalnumB (buf w) then w else w + 1
      some ([toupperB (buf bf), toupperB (buf (bf + 1)), toupperB (buf (bf + 2)),
             toupperB (buf (bf + 3)), 45] ++ gameIdTail buf 300 w2)

/-- `detect_ps1_game(fd, game_id)` (`task_database_cue.c:246-252`): try
without sub-channel mixing, then with it. -/
def detect_ps1_game (img : Nat → Nat) (size : Nat)
    (buf0a buf0b : Nat → Nat) : Option (List Nat) :=
  match detect_ps1_game_sub img size false buf0a with
  | some id => some id
  | none => detect_ps1_game_sub img size true buf0b

/-- Root-directory record field of the synthetic image's primary
volume descriptor (bytes 2..4 hold the little-endian extent 17). -/
def pvd6 : List Nat := [0, 0, 17, 0, 0, 0]

/-- Root directory content of the synthetic image: a first 48-byte
record with a blank name, then a record of extent 18 whose name field
(offset 33) is `SYSTEM.CNF;1`. -/
def rootDirBytes : List Nat :=
  [48] ++ List.replicate 47 0 ++
  ([48, 0, 18, 0, 0] ++ List.replicate 28 0 ++ sysCnfName ++ [0, 0, 0])

/-- Contents of `SYSTEM.CNF` on the synthetic image:
`BOOT = cdrom:\SLES_123.45;1\n`. -/
def cnfBytes : List Nat :=
  [66, 79, 79, 84, 32, 61, 32, 99, 100, 114, 111, 109, 58, 92,
   83, 76, 69, 83, 95, 49, 50, 51, 46, 52, 53, 59, 49, 10]

/-- A synthetic 20-sector Mode-1 ISO (2048-byte sectors, size 40960):
the PVD's root-directory field at byte 32924 (sector 16, offset 156)
points at sector 17; the root directory at byte 34816 holds the
`SYSTEM.CNF;1` entry with extent 18; the file contents live at byte
36864.  All other bytes are zero. -/
def synthIso (n : Nat) : Nat :=
  if 32924 ≤ n ∧ n < 32930 then pvd6.getD (n - 32924) 0
  else if 34816 ≤ n ∧ n < 34912 then rootDirBytes.getD (n - 34816) 0
  else if 36864 ≤ n ∧ n < 36892 then cnfBytes.getD (n - 36864) 0
  else 0

/-- ASCII bytes of `SLES-12345`. -/
def sles12345 : List Nat := [83, 76, 69, 83, 45, 49, 50, 51, 52, 53]

/-- C3.  On a synthetic ISO whose root directory window contains a
`SYSTEM.CNF;1` entry whose 256-byte contents hold a `BOOT` line naming
`cdrom:\SLES_123.45;1`, `detect_ps1_game_sub` succeeds and writes
exactly `SLES-12345` into `game_id`: the first four filename characters
uppercased, a dash, the skipped underscore, then the remaining
alphanumeric characters with `.` dropped.  The conjuncts record that
the synthetic image really carries the `SYSTEM.CNF;1` name in its root
directory window and that the file contents are the `BOOT` line. -/
theorem C3_detect_ps1_game_sub_yields_SLES_12345 :
    detect_ps1_game_sub synthIso 40960 false (fun _ => 0) = some sles12345 ∧
    (∀ i, i < 12 → synthIso (34816 + 48 + 33 + i) = sysCnfName.getD i 0) ∧
    (∀ i, i < 28 → synthIso (36864 + i) = cnfBytes.getD i 0) := by
  refine ⟨by decide, by decide, by decide⟩

/-! ### Signature matcher (`detect_system`) -/

/-- One rule of the static signature table. -/
structure MagicEntry where
  offset : Nat
  system_name : List Nat
  magic : List Nat
deriving Repr, DecidableEq

/-- Pattern of the `ps1` rule. -/
def ps1Magic : List Nat :=
  [0x00, 0xff, 0xff, 0xff, 0xff, 0xff, 0xff, 0xff, 0xff, 0xff, 0xff,
   0x00, 0x00, 0x02, 0x00, 0x02, 0x00]

/-- Pattern of the `pcecd` rule. -/
def pcecdMagic : List Nat :=
  [0x82, 0xb1, 0x82, 0xcc, 0x83, 0x76, 0x83, 0x8d, 0x83, 0x4f, 0x83,
   0x89, 0x83, 0x80, 0x82, 0xcc, 0x92]

/-- Pattern of the `scd` rule. -/
def scdMagic : List Nat :=
  [0x00, 0xff, 0xff, 0xff, 0xff, 0xff, 0xff, 0xff, 0xff, 0xff, 0xff,
   0x00, 0x00, 0x02, 0x00, 0x01, 0x53]

/-- The static rule table `MAGIC_NUMBERS` (`task_database_cue.c:60-65`);
system names as ASCII bytes (`ps1`, `pcecd`, `scd`). -/
def MAGIC_NUMBERS : List MagicEntry :=
  [⟨0, [112, 115, 49], ps1Magic⟩,
   ⟨0x838840, [112, 99, 101, 99, 100], pcecdMagic⟩,
   ⟨0, [115, 99, 100], scdMagic⟩]

/-- `string_is_equal_fast(a, magic, MAGIC_LEN)`: plain `memcmp`
equality over the first `n` buffer bytes. -/
def string_is_equal_fast (buf : Nat → Nat) (magic : List Nat) (n : Nat) : Bool :=
  (List.range n).all (fun i => buf i == magic.getD i 0)

/-- C-string equality of a buffer against a NUL-free pattern whose
terminator position in the buffer is `p.length` (used for
`string_is_equal`). -/
def strEqC (buf : Nat → Nat) (p : List Nat) : Bool :=
  (List.range p.length).all (fun i => buf i == p.getD i 0)

/-- ASCII bytes of `PSP GAME`. -/
def pspGameMagic : List Nat := [80, 83, 80, 32, 71, 65, 77, 69]

/-- Rule-table loop of `detect_system` (`task_database_cue.c:365-383`):
seek to each rule's offset, read 17 bytes (any short read returns
`-errno` immediately), return the rule's system name on an exact match.
Returns the outcome (`none` when the table is exhausted), the final
contents of the `magic` buffer, and the `(offset, length)` probes
performed. -/
def dsGo (f : Nat → Nat) (size : Nat) (errnoV : Int) :
    List MagicEntry → (Nat → Nat) →
    Option (Int × Option (List Nat)) × (Nat → Nat) × List (Nat × Nat)
  | [], buf => (none, buf, [])
  | en :: rest, buf =>
    let buf2 := readInto buf f size en.offset 17
    if readCount size en.offset 17 < 17 then
      (some (-errnoV, none), buf2, [(en.offset, 17)])
    else if string_is_equal_fast buf2 en.magic 17 then
      (some (0, some en.system_name), buf2, [(en.offset, 17)])
    else
      match dsGo f size errnoV rest buf2 with
      | (res, buf3, probes) => (res, buf3, (en.offset, 17) :: probes)

/-- `detect_system(fd, system_name)` (`task_database_cue.c:358-403`):
the rule-table loop, then — only when no rule matched — the heuristic
`PSP GAME` check: seek to 0x8008, read 8 bytes, NUL-terminate at index
8 and compare the buffer's C string against `PSP GAME`; otherwise
`-EINVAL`.  Returns the C return value, the system name reported (as
bytes), and the probes performed. -/
def detect_system (f : Nat → Nat) (size : Nat) (errnoV : Int)
    (buf0 : Nat → Nat) : Int × Option (List Nat) × List (Nat × Nat) :=
  match dsGo f size errnoV MAGIC_NUMBERS buf0 with
  | (some r, _, probes) => (r.1, r.2, probes)
  | (none, buf, probes) =>
    let buf2 := readInto buf f size 0x8008 8
    if 0 < readCount size 0x8008 8 then
      let buf3 := fun i => if i = 8 then 0 else buf2 i
      if !(buf3 0 == 0) && strEqC buf3 pspGameMagic then
        (0, some [112, 115, 112], probes ++ [(0x8008, 8)])
      else (-22, none, probes ++ [(0x8008, 8)])
    else (-22, none, probes ++ [(0x8008, 8)])

/-- Rule `en` matches the stream: all 17 pattern bytes equal the stream
bytes at the rule's offset. -/
def ruleMatches (f : Nat → Nat) (en : MagicEntry) : Prop :=
  ∀ k, k < 17 → f (en.offset + k) = en.magic.getD k 0

/-- A full 17-byte read makes `string_is_equal_fast` a test of the
stream bytes themselves. -/
theorem sief_readInto (f buf : Nat → Nat) (size : Nat) (en : MagicEntry)
    (h : en.offset + 17 ≤ size) :
    string_is_equal_fast (readInto buf f size en.offset 17) en.magic 17 = true ↔
      ruleMatches f en := by
  have hm : readCount size en.offset 17 = 17 := by
    rw [readCount_eq]; omega
  simp only [string_is_equal_fast, readInto, hm, List.all_eq_true,
    List.mem_range, beq_iff_eq, ruleMatches]
  constructor
  · intro hx k hk
    have := hx k hk
    rwa [if_pos hk] at this
  · intro hx k hk
    rw [if_pos hk]
    exact hx k hk

/-- Decidability of a rule match. -/
instance ruleMatchesDec (f : Nat → Nat) (en : MagicEntry) :
    Decidable (ruleMatches f en) :=
  inferInstanceAs (Decidable (∀ k, k < 17 → f (en.offset + k) = en.magic.getD k 0))

/-- One step of the rule-table loop: a fully readable, matching rule
stops the scan with its system name. -/
theorem dsGo_cons_match (f : Nat → Nat) (size : Nat) (e : Int)
    (buf : Nat → Nat) (en : MagicEntry) (rest : List MagicEntry)
    (h : en.offset + 17 ≤ size) (m : ruleMatches f en) :
    dsGo f size e (en :: rest) buf =
      (some (0, some en.system_name), readInto buf f size en.offset 17,
       [(en.offset, 17)]) := by
  have c1 : ¬ (readCount size en.offset 17 < 17) := by rw [readCount_eq]; omega
  have c2 := (sief_readInto f buf size en h).mpr m
  simp only [dsGo]
  rw [if_neg c1, if_pos c2]

/-- One step of the rule-table loop: a fully readable, non-matching
rule passes to the remaining rules, recording its probe. -/
theorem dsGo_cons_miss (f : Nat → Nat) (size : Nat) (e : Int)
    (buf : Nat → Nat) (en : MagicEntry) (rest : List MagicEntry)
    (h : en.offset + 17 ≤ size) (n : ¬ ruleMatches f en) :
    dsGo f size e (en :: rest) buf =
      (match dsGo f size e rest (readInto buf f size en.offset 17) with
       | (res, buf3, probes) => (res, buf3, (en.offset, 17) :: probes)) := by
  have c1 : ¬ (readCount size en.offset 17 < 17) := by rw [readCount_eq]; omega
  have c2 : string_is_equal_fast (readInto buf f size en.offset 17) en.magic 17 = false := by
    rw [Bool.eq_false_iff]
    intro hb
    exact n ((sief_readInto f buf size en h).mp hb)
  simp only [dsGo]
  rw [if_neg c1]
  simp only [c2, Bool.false_eq_true, if_false]

/-- The rule table written as an explicit cons chain. -/
theorem MAGIC_NUMBERS_cons : MAGIC_NUMBERS =
    ⟨0, [112, 115, 49], ps1Magic⟩ ::
    ⟨0x838840, [112, 99, 101, 99, 100], pcecdMagic⟩ ::
    ⟨0, [115, 99, 100], scdMagic⟩ :: [] := rfl

/-- `detect_system` when the first rule matches. -/
theorem ds_match0 (f : Nat → Nat) (size : Nat) (e : Int) (buf0 : Nat → Nat)
    (h0 : 17 ≤ size) (m0 : ruleMatches f ⟨0, [112, 115, 49], ps1Magic⟩) :
    detect_system f size e buf0 = (0, some [112, 115, 49], [(0, 17)]) := by
  have hds := dsGo_cons_match f size e buf0 ⟨0, [112, 115, 49], ps1Magic⟩
    [⟨0x838840, [112, 99, 101, 99, 100], pcecdMagic⟩, ⟨0, [115, 99, 100], scdMagic⟩]
    (show (0 : Nat) + 17 ≤ size by omega) m0
  rw [detect_system, MAGIC_NUMBERS_cons, hds]

/-- `detect_system` when the first rule fails and the second rule
matches. -/
theorem ds_match1 (f : Nat → Nat) (size : Nat) (e : Int) (buf0 : Nat → Nat)
    (h0 : 17 ≤ size) (h1 : 0x838840 + 17 ≤ size)
    (n0 : ¬ ruleMatches f ⟨0, [112, 115, 49], ps1Magic⟩)
    (m1 : ruleMatches f ⟨0x838840, [112, 99, 101, 99, 100], pcecdMagic⟩) :
    detect_system f size e buf0 =
      (0, some [112, 99, 101, 99, 100], [(0, 17), (0x838840, 17)]) := by
  have hm0 := dsGo_cons_miss f size e buf0 ⟨0, [112, 115, 49], ps1Magic⟩
    [⟨0x838840, [112, 99, 101, 99, 100], pcecdMagic⟩, ⟨0, [115, 99, 100], scdMagic⟩]
    (show (0 : Nat) + 17 ≤ size by omega) n0
  have hm1 := dsGo_cons_match f size e (readInto buf0 f size 0 17)
    ⟨0x838840, [112, 99, 101, 99, 100], pcecdMagic⟩ [⟨0, [115, 99, 100], scdMagic⟩] h1 m1
  rw [detect_system, MAGIC_NUMBERS_cons, hm0, hm1]

/-- `detect_system` when the first two rules fail and the third rule
matches. -/
theorem ds_match2 (f : Nat → Nat) (size : Nat) (e : Int) (buf0 : Nat → Nat)
    (h0 : 17 ≤ size) (h1 : 0x838840 + 17 ≤ size)
    (n0 : ¬ ruleMatches f ⟨0, [112, 115, 49], ps1Magic⟩)
    (n1 : ¬ ruleMatches f ⟨0x838840, [112, 99, 101, 99, 100], pcecdMagic⟩)
    (m2 : ruleMatches f ⟨0, [115, 99, 100], scdMagic⟩) :
    detect_system f size e buf0 =
      (0, some [115, 99, 100], [(0, 17), (0x838840, 17), (0, 17)]) := by
  have hm0 := dsGo_cons_miss f size e buf0 ⟨0, [112, 115, 49], ps1Magic⟩
    [⟨0x838840, [112, 99, 101, 99, 100], pcecdMagic⟩, ⟨0, [115, 99, 100], scdMagic⟩]
    (show (0 : Nat) + 17 ≤ size by omega) n0
  have hm1 := dsGo_cons_miss f size e (readInto buf0 f size 0 17)
    ⟨0x838840, [112, 99, 101, 99, 100], pcecdMagic⟩ [⟨0, [115, 99, 100], scdMagic⟩] h1 n1
  have hm2 := dsGo_cons_match f size e
    (readInto (readInto buf0 f size 0 17) f size 0x838840 17)
    ⟨0, [115, 99, 100], scdMagic⟩ []
    (show (0 : Nat) + 17 ≤ size by omega) m2
  rw [detect_system, MAGIC_NUMBERS_cons, hm0, hm1, hm2]

/-- C5.  Whenever the rules up to index `i` can all be fully read, rule
`i` matches the stream bytes at its offset and no earlier rule does,
`detect_system` returns 0 with rule `i`'s system name, and its probes
are exactly the reads of rules `0..i` — it stops at the first match, in
table order, and never consults the `PSP GAME` heuristic offset
0x8008. -/
theorem C5_detect_system_first_match_wins (f : Nat → Nat) (size : Nat)
    (e : Int) (buf0 : Nat → Nat) (i : Nat) (hi : i < 3)
    (hreads : ∀ j, j ≤ i → (MAGIC_NUMBERS.getD j ⟨0, [], []⟩).offset + 17 ≤ size)
    (hmatch : ruleMatches f (MAGIC_NUMBERS.getD i ⟨0, [], []⟩))
    (hfirst : ∀ j, j < i → ¬ ruleMatches f (MAGIC_NUMBERS.getD j ⟨0, [], []⟩)) :
    detect_system f size e buf0 =
      (0, some (MAGIC_NUMBERS.getD i ⟨0, [], []⟩).system_name,
       (List.range (i + 1)).map
         (fun j => ((MAGIC_NUMBERS.getD j ⟨0, [], []⟩).offset, 17))) := by
  interval_cases i
  · have h0 : 17 ≤ size := by have := hreads 0 (by omega); simpa [MAGIC_NUMBERS] using this
    exact ds_match0 f size e buf0 h0 hmatch
  · have h0 : 17 ≤ size := by have := hreads 0 (by omega); simpa [MAGIC_NUMBERS] using this
    have h1 : 0x838840 + 17 ≤ size := by
      have := hreads 1 (by omega); simpa [MAGIC_NUMBERS] using this
    exact ds_match1 f size e buf0 h0 h1 (hfirst 0 (by omega)) hmatch
  · have h0 : 17 ≤ size := by have := hreads 0 (by omega); simpa [MAGIC_NUMBERS] using this
    have h1 : 0x838840 + 17 ≤ size := by
      have := hreads 1 (by omega); simpa [MAGIC_NUMBERS] using this
    exact ds_match2 f size e buf0 h0 h1 (hfirst 0 (by omega)) (hfirst 1 (by omega)) hmatch

/-- A stream carrying both the `ps1` pattern at offset 0 and the
`pcecd` pattern at offset 0x838840. -/
def multiMagicStream (n : Nat) : Nat :=
  if n < 17 then ps1Magic.getD n 0
  else if 0x838840 ≤ n ∧ n < 0x838840 + 17 then pcecdMagic.getD (n - 0x838840) 0
  else 0

/-- C5 witness: on a stream where the `ps1` rule (index 0) and the
`pcecd` rule (index 1) both match, `detect_system` reports `ps1` — the
earliest rule in table order — and probes only the first rule's
offset. -/
theorem C5_detect_system_witness :
    ruleMatches multiMagicStream (MAGIC_NUMBERS.getD 1 ⟨0, [], []⟩) ∧
    detect_system multiMagicStream 8620113 5 (fun _ => 0) =
      (0, some [112, 115, 49], [(0, 17)]) :=
  ⟨by decide,
   C5_detect_system_first_match_wins multiMagicStream 8620113 5 (fun _ => 0) 0
     (by omega) (by decide) (by decide) (by decide)⟩

/-! ### PSP serial scanner (`detect_psp_game`) -/

/-- The publisher-code allow-list of `detect_psp_game`
(`task_database_cue.c:268-292`), in source order, as ASCII bytes. -/
def pspCodes : List (List Nat) :=
  [[85, 76, 69, 83, 45],  -- ULES-
   [85, 76, 85, 83, 45],  -- ULUS-
   [85, 76, 74, 83, 45],  -- ULJS-
   [85, 76, 69, 77, 45],  -- ULEM-
   [85, 76, 85, 77, 45],  -- ULUM-
   [85, 76, 74, 77, 45],  -- ULJM-
   [85, 67, 69, 83, 45],  -- UCES-
   [85, 67, 85, 83, 45],  -- UCUS-
   [85, 67, 74, 83, 45],  -- UCJS-
   [85, 67, 65, 83, 45],  -- UCAS-
   [78, 80, 69, 72, 45],  -- NPEH-
   [78, 80, 85, 72, 45],  -- NPUH-
   [78, 80, 74, 72, 45],  -- NPJH-
   [78, 80, 69, 71, 45],  -- NPEG-
   [78, 80, 85, 71, 45],  -- NPUG-
   [78, 80, 74, 71, 45],  -- NPJG-
   [78, 80, 72, 71, 45],  -- NPHG-
   [78, 80, 69, 90, 45],  -- NPEZ-
   [78, 80, 85, 90, 45],  -- NPUZ-
   [78, 80, 74, 90, 45]]  -- NPJZ-

/-- Scan loop of `detect_psp_game` (`task_database_cue.c:259-311`).
At each position: seek, read 5 bytes into `game_id`; a read returning
no bytes breaks the scan; otherwise NUL-terminate at index 5 and
compare against the allow-list (`string_is_equal`, i.e. C-string
equality); on a match re-read 10 bytes from the same position, and if
that read returns bytes, NUL-terminate at index 10 and report success —
in every match case the loop ends.  Returns the C truth value, the
final `game_id` buffer, and the list of probed positions. -/
def pspGo (f : Nat → Nat) (size : Nat) :
    Nat → Nat → (Nat → Nat) → Bool × (Nat → Nat) × List Nat
  | 0, _, buf => (false, buf, [])
  | rem + 1, pos, buf =>
    let buf1 := readInto buf f size pos 5
    if 0 < readCount size pos 5 then
      let buf2 := fun i => if i = 5 then 0 else buf1 i
      if pspCodes.any (fun p => strEqC buf2 p) then
        let buf3 := readInto buf2 f size pos 10
        if 0 < readCount size pos 10 then
          (true, fun i => if i = 10 then 0 else buf3 i, [pos])
        else
          (false, buf3, [pos])
      else
        match pspGo f size rem (pos + 1) buf2 with
        | (rv, buf4, probes) => (rv, buf4, pos :: probes)
    else
      (false, buf1, [pos])

/-- `detect_psp_game(fd, game_id)`: positions 0 through 99999. -/
def detect_psp_game (f : Nat → Nat) (size : Nat) (buf0 : Nat → Nat) :
    Bool × (Nat → Nat) × List Nat :=
  pspGo f size 100000 0 buf0

/-- No listed publisher code matches the stream at position `p`. -/
def pspNoHit (f : Nat → Nat) (p : Nat) : Prop :=
  ∀ q ∈ pspCodes, ∃ k, k < 5 ∧ f (p + k) ≠ q.getD k 0

instance pspNoHitDec (f : Nat → Nat) (p : Nat) : Decidable (pspNoHit f p) :=
  inferInstanceAs (Decidable (∀ q ∈ pspCodes, ∃ k, k < 5 ∧ f (p + k) ≠ q.getD k 0))

/-- After a full 5-byte read, the C-string comparison against a 5-byte
code tests the stream bytes themselves. -/
theorem strEqC_psp (f buf : Nat → Nat) (size pos : Nat) (q : List Nat)
    (hq : q.length = 5) (h : pos + 5 ≤ size) :
    strEqC (fun i => if i = 5 then 0 else readInto buf f size pos 5 i) q = true ↔
      ∀ k, k < 5 → f (pos + k) = q.getD k 0 := by
  have hm : readCount size pos 5 = 5 := by rw [readCount_eq]; omega
  simp only [strEqC, hq, readInto, hm, List.all_eq_true, List.mem_range, beq_iff_eq]
  constructor
  · intro hx k hk
    have := hx k hk
    rw [if_neg (by omega), if_pos hk] at this
    exact this
  · intro hx k hk
    rw [if_neg (by omega), if_pos hk]
    exact hx k hk

/-- After a full 5-byte read, the allow-list test is determined by the
stream. -/
theorem pspHit_eval (f buf : Nat → Nat) (size pos : Nat) (h : pos + 5 ≤ size) :
    (pspCodes.any (fun p =>
      strEqC (fun i => if i = 5 then 0 else readInto buf f size pos 5 i) p)) = false ↔
      pspNoHit f pos := by
  have hlen : ∀ x ∈ pspCodes, x.length = 5 := by decide
  rw [List.any_eq_false]
  constructor
  · intro hx q hqmem
    by_contra hc
    push_neg at hc
    have hb := (strEqC_psp f buf size pos q (hlen q hqmem) h).mpr hc
    exact hx q hqmem hb
  · intro hx q hqmem
    intro hb
    obtain ⟨k, hk, hne⟩ := hx q hqmem
    exact hne ((strEqC_psp f buf size pos q (hlen q hqmem) h).mp hb k hk)

set_option maxRecDepth 8000 in
/-- Scanning over a stretch of fully readable, non-matching positions
only accumulates probes. -/
theorem pspGo_skip (f : Nat → Nat) (size : Nat) :
    ∀ (cnt : Nat), ∀ (rem pos : Nat), ∀ (buf : Nat → Nat),
    (∀ j, j < cnt → pos + j + 5 ≤ size) →
    (∀ j, j < cnt → pspNoHit f (pos + j)) →
    ∃ buf2, pspGo f size (cnt + rem) pos buf =
      (match pspGo f size rem (pos + cnt) buf2 with
       | (rv, buf3, probes) =>
           (rv, buf3, (List.range cnt).map (fun j => pos + j) ++ probes)) := by
  intro cnt
  induction cnt with
  | zero =>
    intro rem pos buf _ _
    refine ⟨buf, ?_⟩
    rcases hr : pspGo f size rem (pos + 0) buf with ⟨rv, b3, p⟩
    simp only [Nat.add_zero] at hr
    simp only [Nat.zero_add]
    rw [hr]
    simp
  | succ cnt ih =>
    intro rem pos buf hreads hnohit
    have harith : cnt + 1 + rem = (cnt + rem) + 1 := by omega
    rw [harith]
    have h05 : pos + 5 ≤ size := by have := hreads 0 (by omega); omega
    have hrc : 0 < readCount size pos 5 := by rw [readCount_eq]; omega
    have hno : (pspCodes.any (fun p =>
        strEqC (fun i => if i = 5 then 0 else readInto buf f size pos 5 i) p)) = false :=
      (pspHit_eval f buf size pos h05).mpr (by simpa using hnohit 0 (by omega))
    simp only [pspGo]
    rw [if_pos hrc]
    simp only [hno, Bool.false_eq_true, if_false]
    obtain ⟨buf2, hb⟩ := ih rem (pos + 1)
      (fun i => if i = 5 then 0 else readInto buf f size pos 5 i)
      (fun j hj => by have := hreads (j + 1) (by omega); omega)
      (fun j hj => by
        have := hnohit (j + 1) (by omega)
        have e2 : pos + 1 + j = pos + (j + 1) := by omega
        rw [e2]
        exact this)
    refine ⟨buf2, ?_⟩
    rw [hb]
    have e : pos + 1 + cnt = pos + (cnt + 1) := by omega
    rw [e]
    have hmap : (List.range (cnt + 1)).map (fun j => pos + j) =
        pos :: (List.range cnt).map (fun j => pos + 1 + j) := by
      rw [List.range_succ_eq_map]
      simp only [List.map_cons, Nat.add_zero, List.map_map]
      congr 1
      apply List.map_congr_left
      intro a _
      simp only [Function.comp_apply]
      omega
    rcases hr : pspGo f size rem (pos + (cnt + 1)) buf2 with ⟨rv, b3, p⟩
    show (rv, b3, pos :: (List.map (fun j => pos + 1 + j) (List.range cnt) ++ p)) =
      (rv, b3, List.map (fun j => pos + j) (List.range (cnt + 1)) ++ p)
    rw [hmap, List.cons_append]

/-- ASCII bytes of `ULUS-`. -/
def ulusCode : List Nat := [85, 76, 85, 83, 45]

set_option maxRecDepth 16000 in
/-- One scan step at a matching offset, for any remaining fuel: the
scan stops with the 10 re-read bytes NUL-terminated and the single
probe `pos`. -/
theorem pspGo_hit (f : Nat → Nat) (size n pos : Nat) (buf : Nat → Nat)
    (h5 : 0 < readCount size pos 5)
    (hhit : (pspCodes.any (fun p =>
      strEqC (fun i => if i = 5 then 0 else readInto buf f size pos 5 i) p)) = true)
    (h10 : 0 < readCount size pos 10) :
    pspGo f size (n + 1) pos buf =
      (true,
       fun i => if i = 10 then 0 else
         readInto (fun j => if j = 5 then 0 else readInto buf f size pos 5 j)
           f size pos 10 i,
       [pos]) := by
  simp only [pspGo]
  rw [if_pos h5]
  simp only [hhit, if_true]
  rw [if_pos h10]

/-- C7 amended.  If the stream is at least 47 bytes, `ULUS-` occurs at
offset 37, and no listed publisher code matches at any earlier offset,
then `detect_psp_game` succeeds, its `game_id` holds the 10 stream
bytes starting at offset 37 with a NUL at index 10, and the probed
offsets are exactly `0..37` — nothing past the match is probed.  (The
claim's further assertion that the scan stops at the first short read
is corrected separately: only a read returning zero bytes or an error
stops it.) -/
theorem C7_detect_psp_game_finds_serial_at_37 (f : Nat → Nat) (size : Nat)
    (buf0 : Nat → Nat) (hsize : 47 ≤ size)
    (hmatch : ∀ k, k < 5 → f (37 + k) = ulusCode.getD k 0)
    (hfirst : ∀ p, p < 37 → pspNoHit f p) :
    (detect_psp_game f size buf0).1 = true ∧
    (∀ i, i < 10 → (detect_psp_game f size buf0).2.1 i = f (37 + i)) ∧
    (detect_psp_game f size buf0).2.1 10 = 0 ∧
    (detect_psp_game f size buf0).2.2 = List.range 38 := by
  obtain ⟨buf2, hb⟩ := pspGo_skip f size 37 (99962 + 1) 0 buf0
    (fun j hj => by omega)
    (fun j hj => by simpa using hfirst (0 + j) (by omega))
  have h375 : 37 + 5 ≤ size := by omega
  have hrc : 0 < readCount size 37 5 := by rw [readCount_eq]; omega
  have hrc10 : readCount size 37 10 = 10 := by rw [readCount_eq]; omega
  have hhit : (pspCodes.any (fun p =>
      strEqC (fun i => if i = 5 then 0 else readInto buf2 f size 37 5 i) p)) = true := by
    rw [List.any_eq_true]
    refine ⟨ulusCode, by decide, ?_⟩
    exact (strEqC_psp f buf2 size 37 ulusCode rfl h375).mpr hmatch
  have hone : pspGo f size (99962 + 1) 37 buf2 =
      (true,
       fun i => if i = 10 then 0 else
         readInto (fun j => if j = 5 then 0 else readInto buf2 f size 37 5 j)
           f size 37 10 i,
       [37]) :=
    pspGo_hit f size 99962 37 buf2 hrc hhit (by rw [readCount_eq]; omega)
  have hdet : detect_psp_game f size buf0 =
      (true,
       fun i => if i = 10 then 0 else
         readInto (fun j => if j = 5 then 0 else readInto buf2 f size 37 5 j)
           f size 37 10 i,
       (List.range 37).map (fun j => 0 + j) ++ [37]) := by
    show pspGo f size 100000 0 buf0 = _
    rw [show (100000 : Nat) = 37 + (99962 + 1) from rfl, hb]
    rw [show (0 : Nat) + 37 = 37 from rfl, hone]
  rw [hdet]
  refine ⟨rfl, ?_, ?_, ?_⟩
  · intro i hi
    simp only []
    rw [if_neg (by omega)]
    simp only [readInto, hrc10]
    rw [if_pos (by omega)]
  · show (if (10 : Nat) = 10 then 0 else
        readInto (fun j => if j = 5 then 0 else readInto buf2 f size 37 5 j)
          f size 37 10 10) = 0
    rw [if_pos rfl]
  · show List.map (fun j => 0 + j) (List.range 37) ++ [37] = List.range 38
    decide

/-- C7 counterexample.  On a 38-byte stream of zeros the 5-byte read at
offset 34 is short but positive (4 bytes); the claim says the scan stops
there, yet the scan goes on to probe offsets 35, 36, 37 and 38, stopping
only at offset 38 where the read returns no bytes at all. -/
theorem C7_short_read_does_not_stop_scan_counterexample :
    0 < readCount 38 34 5 ∧ readCount 38 34 5 < 5 ∧
    (detect_psp_game (fun _ => 0) 38 (fun _ => 0)).2.2 = List.range 39 ∧
    (35 : Nat) ∈ (detect_psp_game (fun _ => 0) 38 (fun _ => 0)).2.2 := by
  decide

/-- Concrete stream for the C7 witness: `ULUS-12345` at offset 37 of a
47-byte image, zeros elsewhere. -/
def ulusStream : Nat → Nat := fun n =>
  if 37 ≤ n ∧ n < 47 then
    [85, 76, 85, 83, 45, 49, 50, 51, 52, 53].getD (n - 37) 0
  else 0

/-- Witness for C7 at a concrete stream. -/
theorem C7_detect_psp_game_witness :
    (detect_psp_game ulusStream 47 (fun _ => 0)).1 = true ∧
    (detect_psp_game ulusStream 47 (fun _ => 0)).2.1 0 = 85 ∧
    (detect_psp_game ulusStream 47 (fun _ => 0)).2.1 10 = 0 ∧
    (detect_psp_game ulusStream 47 (fun _ => 0)).2.2 = List.range 38 := by
  obtain ⟨h1, h2, h3, h4⟩ := C7_detect_psp_game_finds_serial_at_37 ulusStream 47
    (fun _ => 0) (by decide) (by decide) (by decide)
  exact ⟨h1, by rw [h2 0 (by decide)]; decide, h3, h4⟩

/-! ### ASCII serial scanner (`detect_serial_ascii_game`) -/

/-- Character class accepted by the serial scan
(`task_database_cue.c:337`): `-`, `0`-`9`, `A`-`Z`. -/
def allowedB (c : Nat) : Bool :=
  c == 45 || (48 ≤ c && c ≤ 57) || (65 ≤ c && c ≤ 90)

/-- `numberOfAscii` after the inner loop: length of the leading run of
allowed characters among `game_id[0..14]` (`task_database_cue.c:334-341`). -/
def runLen (buf : Nat → Nat) : Nat :=
  (((List.range 15).map buf).takeWhile allowedB).length

/-- One iteration of the `detect_serial_ascii_game` scan, as recorded in
the trace: the probed offset, the byte count the 15-byte read returned,
and the stores into the caller's `game_id` buffer. -/
structure SerIter where
  pos : Nat
  rc : Nat
  writes : List (Nat × Nat)
deriving Repr, DecidableEq

/-- Scan loop of `detect_serial_ascii_game` (`task_database_cue.c:324-352`).
At each offset: seek, read 15 bytes; when the read returns a positive
count, store NUL at index 15, count the leading allowed-character run
over all 15 buffer slots (stale bytes included after a short read), and
accept when the run length is strictly between 3 and 9, NUL-terminating
there and stopping; otherwise move to the next offset.  A read returning
zero bytes does NOT stop the loop: the offset is merely skipped. -/
def serialGo (f : Nat → Nat) (size : Nat) :
    Nat → Nat → (Nat → Nat) → Bool × (Nat → Nat) × List SerIter
  | 0, _, buf => (false, buf, [])
  | fuel + 1, pos, buf =>
    let rc := readCount size pos 15
    if 0 < rc then
      let buf1 := readInto buf f size pos 15
      let buf2 := fun i => if i = 15 then 0 else buf1 i
      let wr := ((List.range rc).map (fun k => (k, f (pos + k)))) ++ [((15 : Nat), (0 : Nat))]
      let n := runLen buf2
      if 3 < n ∧ n < 9 then
        (true, fun i => if i = n then 0 else buf2 i, [⟨pos, rc, wr ++ [(n, 0)]⟩])
      else
        match serialGo f size fuel (pos + 1) buf2 with
        | (rv, b2, tr) => (rv, b2, ⟨pos, rc, wr⟩ :: tr)
    else
      match serialGo f size fuel (pos + 1) buf with
      | (rv, b2, tr) => (rv, b2, ⟨pos, rc, []⟩ :: tr)

/-- `detect_serial_ascii_game` (`task_database_cue.c:319-356`): scan
offsets `0..9999`, returning the success flag, the caller's `game_id`
buffer contents, and the iteration trace. -/
def detect_serial_ascii_game (f : Nat → Nat) (size : Nat) (buf : Nat → Nat) :
    Bool × (Nat → Nat) × List SerIter :=
  serialGo f size 10000 0 buf

/-- The stream bytes a 15-byte read at `p` actually delivers. -/
def streamWindow (f : Nat → Nat) (size p : Nat) : List Nat :=
  (List.range (readCount size p 15)).map (fun k => f (p + k))

/-- Length of the leading allowed-character run among the stream bytes a
15-byte read at `p` delivers. -/
def streamRunLen (f : Nat → Nat) (size p : Nat) : Nat :=
  ((streamWindow f size p).takeWhile allowedB).length

/-- Offsets the scan accepts when the read there is full: leading run
of allowed stream bytes strictly between 3 and 9. -/
def goodRun (f : Nat → Nat) (size p : Nat) : Prop :=
  3 < streamRunLen f size p ∧ streamRunLen f size p < 9

instance goodRunDec (f : Nat → Nat) (size p : Nat) : Decidable (goodRun f size p) :=
  inferInstanceAs (Decidable (_ ∧ _))

/-- The iteration trace of one scan step, by the three cases of the
loop body. -/
theorem serialGo_trace_succ (f : Nat → Nat) (size fuel pos : Nat) (buf : Nat → Nat) :
    (serialGo f size (fuel + 1) pos buf).2.2 =
      (if 0 < readCount size pos 15 then
        (if 3 < runLen (fun i => if i = 15 then 0 else readInto buf f size pos 15 i) ∧
            runLen (fun i => if i = 15 then 0 else readInto buf f size pos 15 i) < 9 then
          [⟨pos, readCount size pos 15,
            (((List.range (readCount size pos 15)).map (fun k => (k, f (pos + k)))) ++
              [((15 : Nat), (0 : Nat))]) ++
              [(runLen (fun i => if i = 15 then 0 else readInto buf f size pos 15 i),
                (0 : Nat))]⟩]
        else
          ⟨pos, readCount size pos 15,
            ((List.range (readCount size pos 15)).map (fun k => (k, f (pos + k)))) ++
              [((15 : Nat), (0 : Nat))]⟩ ::
            (serialGo f size fuel (pos + 1)
              (fun i => if i = 15 then 0 else readInto buf f size pos 15 i)).2.2)
      else
        ⟨pos, readCount size pos 15, []⟩ ::
          (serialGo f size fuel (pos + 1) buf).2.2) := by
  by_cases h0 : 0 < readCount size pos 15
  · by_cases hg : 3 < runLen (fun i => if i = 15 then 0 else readInto buf f size pos 15 i) ∧
        runLen (fun i => if i = 15 then 0 else readInto buf f size pos 15 i) < 9
    · simp only [serialGo]
      rw [if_pos h0, if_pos hg, if_pos h0, if_pos hg]
    · simp only [serialGo]
      rw [if_pos h0, if_neg hg, if_pos h0, if_neg hg]
      all_goals
        rcases hr : serialGo f size fuel (pos + 1)
          (fun i => if i = 15 then 0 else readInto buf f size pos 15 i) with ⟨rv, b, t⟩
        rfl
  · simp only [serialGo]
    rw [if_neg h0, if_neg h0]
    all_goals
      rcases hr : serialGo f size fuel (pos + 1) buf with ⟨rv, b, t⟩
      rfl

/-- C10.  On every probed offset whose 15-byte read returns a positive
count, `detect_serial_ascii_game` stores a NUL at index 15 of the
caller's `game_id` buffer (`game_id[15] = 0` at `task_database_cue.c:330`
runs before any run counting), so the caller must supply at least 16
bytes even though the returned serial is at most 8 characters. -/
theorem C10_nul_written_at_15_on_every_positive_read (f : Nat → Nat) (size : Nat)
    (buf0 : Nat → Nat) :
    ∀ it ∈ (detect_serial_ascii_game f size buf0).2.2,
      0 < it.rc → ((15 : Nat), (0 : Nat)) ∈ it.writes := by
  have main : ∀ fuel pos buf, ∀ it ∈ (serialGo f size fuel pos buf).2.2,
      0 < it.rc → ((15 : Nat), (0 : Nat)) ∈ it.writes := by
    intro fuel
    induction fuel with
    | zero =>
      intro pos buf it hit
      simp [serialGo] at hit
    | succ fuel ih =>
      intro pos buf it hit hrc
      rw [serialGo_trace_succ] at hit
      by_cases h0 : 0 < readCount size pos 15
      · rw [if_pos h0] at hit
        by_cases hg : 3 < runLen (fun i => if i = 15 then 0 else readInto buf f size pos 15 i) ∧
            runLen (fun i => if i = 15 then 0 else readInto buf f size pos 15 i) < 9
        · rw [if_pos hg] at hit
          simp only [List.mem_singleton] at hit
          subst hit
          simp
        · rw [if_neg hg] at hit
          rcases List.mem_cons.mp hit with h | h
          · subst h
            simp
          · exact ih (pos + 1) _ it h hrc
      · rw [if_neg h0] at hit
        rcases List.mem_cons.mp hit with h | h
        · subst h
          exact absurd hrc h0
        · exact ih (pos + 1) buf it h hrc
  exact main 10000 0 buf0

/-- Witness for C10: on a stream opening with six allowed bytes the scan
accepts at offset 0, and that iteration's write trace contains the NUL
store at index 15. -/
theorem C10_nul_written_witness :
    ((15 : Nat), (0 : Nat)) ∈ (SerIter.mk 0 15
      [(0, 65), (1, 65), (2, 65), (3, 65), (4, 65), (5, 65), (6, 33), (7, 33),
       (8, 33), (9, 33), (10, 33), (11, 33), (12, 33), (13, 33), (14, 33),
       (15, 0), (6, 0)]).writes :=
  C10_nul_written_at_15_on_every_positive_read
    (fun n => if n < 6 then 65 else 33) 20 (fun _ => 0)
    (SerIter.mk 0 15
      [(0, 65), (1, 65), (2, 65), (3, 65), (4, 65), (5, 65), (6, 33), (7, 33),
       (8, 33), (9, 33), (10, 33), (11, 33), (12, 33), (13, 33), (14, 33),
       (15, 0), (6, 0)])
    (by decide) (by decide)

/-- When the 15-byte read at `pos` is full, the run counted over the
buffer equals the run over the stream bytes: no stale byte is reachable
before index 15. -/
theorem runLen_full (f buf : Nat → Nat) (size pos : Nat) (hps : pos + 15 ≤ size) :
    runLen (fun i => if i = 15 then 0 else readInto buf f size pos 15 i) =
      streamRunLen f size pos := by
  have hrc : readCount size pos 15 = 15 := by rw [readCount_eq]; omega
  have hm : (List.range 15).map
      (fun i => if i = 15 then 0 else readInto buf f size pos 15 i) =
      (List.range 15).map (fun k => f (pos + k)) := by
    apply List.map_congr_left
    intro a ha
    have ha15 : a < 15 := List.mem_range.mp ha
    rw [if_neg (by omega)]
    show (if a < readCount size pos 15 then f (pos + a) else buf a) = f (pos + a)
    rw [if_pos (by omega)]
  unfold runLen streamRunLen streamWindow
  rw [hm, hrc]

/-- Scanning over a stretch of fully readable offsets with no acceptable
run only advances the position and extends the trace. -/
theorem serialGo_skip (f : Nat → Nat) (size : Nat) :
    ∀ (cnt : Nat), ∀ (rem pos : Nat), ∀ (buf : Nat → Nat),
    (∀ j, j < cnt → pos + j + 15 ≤ size) →
    (∀ j, j < cnt → ¬ goodRun f size (pos + j)) →
    ∃ buf2 tr, serialGo f size (cnt + rem) pos buf =
      (match serialGo f size rem (pos + cnt) buf2 with
       | (rv, b, t) => (rv, b, tr ++ t)) := by
  intro cnt
  induction cnt with
  | zero =>
    intro rem pos buf _ _
    refine ⟨buf, [], ?_⟩
    rcases hr : serialGo f size rem (pos + 0) buf with ⟨rv, b, t⟩
    simp only [Nat.add_zero] at hr
    simp only [Nat.zero_add]
    rw [hr]
    simp
  | succ cnt ih =>
    intro rem pos buf hreads hnogood
    have harith : cnt + 1 + rem = (cnt + rem) + 1 := by omega
    rw [harith]
    have h015 : pos + 15 ≤ size := by have := hreads 0 (by omega); omega
    have hrc : 0 < readCount size pos 15 := by rw [readCount_eq]; omega
    have hng : ¬ (3 < streamRunLen f size pos ∧ streamRunLen f size pos < 9) := by
      have := hnogood 0 (by omega)
      simpa [goodRun] using this
    simp only [serialGo]
    rw [if_pos hrc, runLen_full f buf size pos h015, if_neg hng]
    obtain ⟨buf2, tr, hb⟩ := ih rem (pos + 1)
      (fun i => if i = 15 then 0 else readInto buf f size pos 15 i)
      (fun j hj => by have := hreads (j + 1) (by omega); omega)
      (fun j hj => by
        have := hnogood (j + 1) (by omega)
        have e2 : pos + 1 + j = pos + (j + 1) := by omega
        rw [e2]
        exact this)
    refine ⟨buf2,
      ⟨pos, readCount size pos 15,
        ((List.range (readCount size pos 15)).map (fun k => (k, f (pos + k)))) ++
          [((15 : Nat), (0 : Nat))]⟩ :: tr, ?_⟩
    rw [hb]
    have e : pos + 1 + cnt = pos + (cnt + 1) := by omega
    rw [e]
    rcases hr : serialGo f size rem (pos + (cnt + 1)) buf2 with ⟨rv, b, t⟩
    show (rv, b, (⟨pos, readCount size pos 15, _⟩ : SerIter) :: (tr ++ t)) =
      (rv, b, ((⟨pos, readCount size pos 15, _⟩ : SerIter) :: tr) ++ t)
    rw [List.cons_append]

/-- At a fully readable offset with an acceptable run, the scan stops:
it reports success, copies the stream bytes of the run into the buffer,
and NUL-terminates at the run length. -/
theorem serialGo_hit (f : Nat → Nat) (size fuel pos : Nat) (buf : Nat → Nat)
    (hps : pos + 15 ≤ size) (hg : goodRun f size pos) :
    (serialGo f size (fuel + 1) pos buf).1 = true ∧
    (∀ i, i < streamRunLen f size pos →
      (serialGo f size (fuel + 1) pos buf).2.1 i = f (pos + i)) ∧
    (serialGo f size (fuel + 1) pos buf).2.1 (streamRunLen f size pos) = 0 := by
  have hrc : 0 < readCount size pos 15 := by rw [readCount_eq]; omega
  have hrc15 : readCount size pos 15 = 15 := by rw [readCount_eq]; omega
  have hunf : serialGo f size (fuel + 1) pos buf =
      (true,
       fun i => if i = streamRunLen f size pos then 0 else
         (fun j => if j = 15 then 0 else readInto buf f size pos 15 j) i,
       [⟨pos, readCount size pos 15,
         ((List.range (readCount size pos 15)).map (fun k => (k, f (pos + k)))) ++
           [((15 : Nat), (0 : Nat)), (streamRunLen f size pos, (0 : Nat))]⟩]) := by
    simp only [serialGo]
    rw [if_pos hrc, runLen_full f buf size pos hps,
      if_pos (show 3 < streamRunLen f size pos ∧ streamRunLen f size pos < 9 from hg)]
    rw [List.append_assoc]
    rfl
  rw [hunf]
  have hsr9 : streamRunLen f size pos < 9 := hg.2
  refine ⟨rfl, ?_, ?_⟩
  · intro i hi
    show (if i = streamRunLen f size pos then 0 else
        (fun j => if j = 15 then 0 else readInto buf f size pos 15 j) i) = f (pos + i)
    rw [if_neg (by omega)]
    show (if i = 15 then 0 else readInto buf f size pos 15 i) = f (pos + i)
    rw [if_neg (by omega)]
    show (if i < readCount size pos 15 then f (pos + i) else buf i) = f (pos + i)
    rw [if_pos (by omega)]
  · show (if streamRunLen f size pos = streamRunLen f size pos then 0 else
        (fun j => if j = 15 then 0 else readInto buf f size pos 15 j)
          (streamRunLen f size pos)) = 0
    rw [if_pos rfl]

/-- C8 counterexample.  On a one-byte stream holding `A`, with stale
bytes `A A A !` sitting in the caller's buffer, the read at offset 0
returns a single byte, yet the run count walks the stale buffer tail and
reaches 4, so `detect_serial_ascii_game` reports success — although no
offset of the stream carries an allowed-character run longer than 1.
The claim's "maximal leading run" therefore cannot refer to the stream
when a read is short: success here depends on leftover buffer bytes. -/
theorem C8_stale_buffer_counterexample :
    (detect_serial_ascii_game (fun _ => 65) 1
      (fun i => if i < 4 then 65 else 33)).1 = true ∧
    readCount 1 0 15 = 1 ∧
    readCount 1 1 15 = 0 ∧
    streamRunLen (fun _ => 65) 1 0 = 1 := by
  decide

/-- C8 amended.  When every probed offset can deliver a full 15-byte
read (`10014 ≤ size`), `detect_serial_ascii_game` succeeds exactly when
some offset below 10000 has a leading allowed-character run (over `-`,
`0`-`9`, `A`-`Z`) of length strictly between 3 and 9; at the first such
offset the returned buffer holds the run's stream bytes NUL-terminated
at the run length.  Runs of length 3 or less, or 9 or more, never
produce a result from their offset. -/
theorem C8_detect_serial_ascii_game_characterized (f : Nat → Nat) (size : Nat)
    (buf0 : Nat → Nat) (hsize : 10014 ≤ size) :
    ((detect_serial_ascii_game f size buf0).1 = true ↔
      ∃ p, p < 10000 ∧ goodRun f size p) ∧
    (∀ p0, p0 < 10000 → goodRun f size p0 → (∀ q, q < p0 → ¬ goodRun f size q) →
      (∀ i, i < streamRunLen f size p0 →
        (detect_serial_ascii_game f size buf0).2.1 i = f (p0 + i)) ∧
      (detect_serial_ascii_game f size buf0).2.1 (streamRunLen f size p0) = 0) := by
  have run : ∀ p0, p0 < 10000 → goodRun f size p0 →
      (∀ q, q < p0 → ¬ goodRun f size q) →
      (detect_serial_ascii_game f size buf0).1 = true ∧
      (∀ i, i < streamRunLen f size p0 →
        (detect_serial_ascii_game f size buf0).2.1 i = f (p0 + i)) ∧
      (detect_serial_ascii_game f size buf0).2.1 (streamRunLen f size p0) = 0 := by
    intro p0 hp0 hgood hleast
    obtain ⟨buf2, tr, hs⟩ := serialGo_skip f size p0 (10000 - p0) 0 buf0
      (fun j hj => by omega)
      (fun j hj => by simpa using hleast (0 + j) (by omega))
    have e1 : p0 + (10000 - p0) = 10000 := by omega
    rw [e1] at hs
    simp only [Nat.zero_add] at hs
    have e2 : 10000 - p0 = (10000 - p0 - 1) + 1 := by omega
    rw [e2] at hs
    obtain ⟨h1, h2, h3⟩ := serialGo_hit f size (10000 - p0 - 1) p0 buf2
      (by omega) hgood
    rcases hr : serialGo f size (10000 - p0 - 1 + 1) p0 buf2 with ⟨rv, b, t⟩
    rw [hr] at hs h1 h2 h3
    have hdet : detect_serial_ascii_game f size buf0 = (rv, b, tr ++ t) := hs
    rw [hdet]
    exact ⟨h1, h2, h3⟩
  constructor
  · constructor
    · intro htrue
      by_contra hno
      push_neg at hno
      obtain ⟨buf2, tr, hs⟩ := serialGo_skip f size 10000 0 0 buf0
        (fun j hj => by omega)
        (fun j hj => by simpa using hno (0 + j) (by omega))
      simp only [Nat.add_zero, Nat.zero_add] at hs
      have hdet : detect_serial_ascii_game f size buf0 = (false, buf2, tr ++ []) := by
        show serialGo f size 10000 0 buf0 = _
        rw [hs]
        rfl
      rw [hdet] at htrue
      exact absurd htrue (by simp)
    · intro hex
      have hex' : ∃ p, p < 10000 ∧ goodRun f size p := hex
      have hfind := Nat.find_spec hex'
      refine (run (Nat.find hex') hfind.1 hfind.2 ?_).1
      intro q hq hgq
      exact Nat.find_min hex' hq ⟨by omega, hgq⟩
  · intro p0 hp0 hgood hleast
    exact (run p0 hp0 hgood hleast).2

/-- Witness for C8: a stream opening with six allowed bytes followed by
a disallowed one; the scan accepts at offset 0 with run length 6. -/
theorem C8_detect_serial_witness :
    ((detect_serial_ascii_game (fun n => if n < 6 then 66 else 33) 10014
      (fun _ => 0)).1 = true ↔
      ∃ p, p < 10000 ∧ goodRun (fun n => if n < 6 then 66 else 33) 10014 p) ∧
    (detect_serial_ascii_game (fun n => if n < 6 then 66 else 33) 10014
      (fun _ => 0)).1 = true := by
  obtain ⟨hiff, hrun⟩ := C8_detect_serial_ascii_game_characterized
    (fun n => if n < 6 then 66 else 33) 10014 (fun _ => 0) (by decide)
  exact ⟨hiff, hiff.mpr ⟨0, by decide, by decide⟩⟩

end RetroArchCue
